import Mathlib

/-!
# Verification of the codeconz lighthouses bot (decision engine)

Shallow embedding of the per-turn decision engine of the repository's two bot
variants (`src/main.py`, `src/randbot.py`) and proofs about the claims of the
specification.

Conventions of the embedding:
* Board coordinates are integer pairs (`Pos`); machine integers of the source
  are Python arbitrary-precision ints, so `Int` is exact.
* Randomness (`random.choice`, `random.randrange`, `random.random`) is modelled
  by an injectable oracle: a list of naturals consumed in call order.  This is
  the standard shallow embedding of a PRNG (the spec itself requires randomness
  to be "routed through an injectable randomness interface").
* Python floats appear only in scoring (`calculate_triangle_area` divides by
  `2.0`, `find_best_connection` multiplies by `1.5`, `optimize_energy_allocation`
  compares with `current_energy * 0.7`).  All values arising there are small
  multiples of `1/4`, which binary doubles represent exactly, so the scores are
  modelled exactly in `ℚ`; the one comparison against `0.7 * E` is modelled as
  `10 * target > 7 * E`, which coincides with the float comparison for every
  integer `E` (both sides are more than an ulp away from any integer crossing,
  and when `7E/10` is itself an integer the rounded product still decides the
  strict comparison identically).
* Write-only attributes of `BotGame` (`turn_states`, `countT`,
  `enemy_lighthouse_control`, `strategic_zones`, `connection_threats`,
  `enemy_positions`, `enemy_patterns`, `current_path`, `path_target`) are never
  read by any decision path and are omitted from the state; `turn_history` is
  only ever consulted through `len(self.turn_history)` and is modelled by its
  length.
-/

/-- A board coordinate, as the integer pair `(X, Y)` of a protobuf `Position`. -/
abbrev Pos := ℤ × ℤ

/-- `game_pb2.Lighthouse` as seen in a turn snapshot. -/
structure Lighthouse where
  Position : Pos
  Owner : ℤ
  Energy : ℤ
  HaveKey : Bool
  Connections : List Pos
  deriving DecidableEq, Repr

/-- `game_pb2.NewTurn`: the per-turn snapshot. -/
structure NewTurn where
  Position : Pos
  Energy : ℤ
  Lighthouses : List Lighthouse
  deriving DecidableEq, Repr

/-- `game_pb2.NewAction`: the single action returned for a turn.  The `Energy`
field is only ever set on attacks; `halt` models `game_pb2.PASS`. -/
inductive NewAction where
  | move (dest : Pos)
  | attack (energy : ℤ) (dest : Pos)
  | connect (dest : Pos)
  | halt (dest : Pos)
  deriving DecidableEq, Repr

/-- Destination coordinate carried by an action. -/
def NewAction.destination : NewAction → Pos
  | .move d => d
  | .attack _ d => d
  | .connect d => d
  | .halt d => d

/-- `self.map_width` (fixed 15×15 board). -/
def map_width : ℤ := 15

/-- `self.map_height`. -/
def map_height : ℤ := 15

/-- The bounds test `0 <= x < self.map_width and 0 <= y < self.map_height`. -/
def inBounds (p : Pos) : Bool :=
  decide (0 ≤ p.1) && decide (p.1 < map_width) && decide (0 ≤ p.2) && decide (p.2 < map_height)

/-- The eight movement offsets, in the iteration order
`for dx in [-1,0,1]: for dy in [-1,0,1]` with `(0,0)` skipped. -/
def moveOffsets : List (ℤ × ℤ) :=
  [(-1, -1), (-1, 0), (-1, 1), (0, -1), (0, 1), (1, -1), (1, 0), (1, 1)]

/-- One draw from the injected randomness oracle. -/
def draw (r : List ℕ) : ℕ × List ℕ := (r.headD 0, r.tail)

/-- `random.choice(seq)`: consumes one oracle value to index the sequence.
Only ever applied to non-empty sequences by the source. -/
def pyChoice {α : Type} [Inhabited α] (l : List α) (r : List ℕ) : α × List ℕ :=
  (l.getD ((draw r).1 % l.length) default, (draw r).2)

instance : Inhabited NewAction := ⟨.halt (0, 0)⟩

/-- Build the `lighthouses` dict keyed by position: Python dict semantics
(first-insertion key order, later values overwrite). -/
def dictInsert (d : List (Pos × Lighthouse)) (k : Pos) (v : Lighthouse) :
    List (Pos × Lighthouse) :=
  match d with
  | [] => [(k, v)]
  | (k', v') :: rest => if k' = k then (k', v) :: rest else (k', v') :: dictInsert rest k v

/-- `lighthouses = dict(); for lh in turn.Lighthouses: lighthouses[pos] = lh`. -/
def buildLighthouseDict (ls : List Lighthouse) : List (Pos × Lighthouse) :=
  ls.foldl (fun d lh => dictInsert d lh.Position lh) []

/-- Python `key in dict` / `dict[key]` lookup. -/
def dictGet? (d : List (Pos × Lighthouse)) (k : Pos) : Option Lighthouse :=
  (d.find? (fun e => e.1 = k)).map (·.2)

namespace Randbot

/-- In `randbot.py` the duplicate-connection check is
`[cx, cy] not in lighthouses[dest].Connections`: it compares a Python *list*
`[cx, cy]` against protobuf `Position` *messages*.  A list never compares equal
to a message, so the membership test is always `False` and the guard is always
satisfied.  Modelled faithfully as a constantly-false element test. -/
def pyListEqPositionMsg (_xy : Pos) (_conn : Pos) : Bool := false

/-- The random move at the end of `randbot.BotGame.new_turn_action`
(`move = random.choice(moves)`); note there is no bounds check. -/
def moveRandom (t : NewTurn) (r : List ℕ) : NewAction × List ℕ :=
  let (mv, r') := pyChoice moveOffsets r
  (.move (t.Position.1 + mv.1, t.Position.2 + mv.2), r')

/-- `randbot.BotGame.new_turn_action` (the bot keeps no state that its decisions
ever read, so only the player id is threaded). -/
def new_turn_action (player : ℤ) (t : NewTurn) (r : List ℕ) : NewAction × List ℕ :=
  let cx := t.Position.1
  let cy := t.Position.2
  let lighthouses := buildLighthouseDict t.Lighthouses
  match dictGet? lighthouses (cx, cy) with
  | some lhHere =>
    if lhHere.Owner = player then
      let (d1, r1) := draw r
      let possible :=
        if d1 % 100 < 60 then
          (lighthouses.filter (fun e =>
            (!decide (e.1 = (cx, cy))) && e.2.HaveKey &&
            (!(e.2.Connections.any (pyListEqPositionMsg (cx, cy)))) &&
            decide (e.2.Owner = player))).map (·.1)
        else []
      if possible ≠ [] then
        let (dest, r2) := pyChoice possible r1
        (.connect dest, r2)
      else
        let (d2, r2) := draw r1
        if d2 % 100 < 60 then
          let (d3, r3) := draw r2
          (.attack ((d3 % (t.Energy.toNat + 1) : ℕ) : ℤ) (cx, cy), r3)
        else
          moveRandom t r2
    else
      moveRandom t r
  | none => moveRandom t r

end Randbot

namespace MainBot

/-- `BotGame.calculate_triangle_area` (shoelace formula; the Python float
division by `2.0` is exact on these integer numerators, modelled in `ℚ`). -/
def calculate_triangle_area (p1 p2 p3 : Pos) : ℚ :=
  ((p1.1 * (p2.2 - p3.2) + p2.1 * (p3.2 - p1.2) + p3.1 * (p1.2 - p2.2)).natAbs : ℚ) / 2

/-- `BotGame.heuristic`: Manhattan distance. -/
def heuristic (a b : Pos) : ℕ := (a.1 - b.1).natAbs + (a.2 - b.2).natAbs

/-- Chebyshev distance (number of 8-directional unit steps between two cells). -/
def chebyshev (a b : Pos) : ℕ := max (a.1 - b.1).natAbs (a.2 - b.2).natAbs

/-- `BotGame.get_neighbors`: the in-bounds cells among the 8 neighbours,
in the source's `dx`-outer/`dy`-inner iteration order. -/
def get_neighbors (pos : Pos) : List Pos :=
  (moveOffsets.map (fun d => (pos.1 + d.1, pos.2 + d.2))).filter inBounds

/-- `self.corner_positions`. -/
def corner_positions : List Pos := [(0, 0), (0, 14), (14, 0), (14, 14)]

/-- `self.energy_reserve` (initialised to 20, never reassigned). -/
def energy_reserve : ℤ := 20

/-- Python `set.add` on a set modelled as an insertion-ordered duplicate-free
list. -/
def setInsert (s : List Pos) (p : Pos) : List Pos := if p ∈ s then s else s ++ [p]

/-- Fold `f` over all ordered pairs `(l[i], l[j])` with `i < j`, in the order of
the source's `for i, a in enumerate(l): for b in l[i+1:]` loops. -/
def pairsFoldl {α β : Type} (f : β → α → α → β) : β → List α → β
  | b, [] => b
  | b, x :: xs => pairsFoldl f (xs.foldl (fun b y => f b x y) b) xs

/-- Stable insertion used by `sortDescBy`: the new element goes after every
earlier element whose key is not smaller. -/
def insertDescBy {α : Type} (ge : α → α → Bool) (x : α) : List α → List α
  | [] => [x]
  | y :: ys => if ge y x then y :: insertDescBy ge x ys else x :: y :: ys

/-- Python `sorted(l, key=…, reverse=True)`: a stable descending sort. -/
def sortDescBy {α : Type} (ge : α → α → Bool) (l : List α) : List α :=
  l.foldl (fun acc x => insertDescBy ge x acc) []

/-- `steps = max(abs(x2-x1), abs(y2-y1))` of `predict_enemy_movement`
(line 136): the Chebyshev span of a lighthouse pair. -/
def lineSteps (p1 p2 : Pos) : ℕ := max (p2.1 - p1.1).natAbs (p2.2 - p1.2).natAbs

/-- The interpolated cell `(x1 + (x2-x1)*step // steps, y1 + (y2-y1)*step // steps)`
of `predict_enemy_movement` (lines 139–140); Python `//` is floor division
(`Int.fdiv`). -/
def interpCell (p1 p2 : Pos) (step : ℕ) : Pos :=
  (p1.1 + Int.fdiv ((p2.1 - p1.1) * step) (lineSteps p1 p2),
   p1.2 + Int.fdiv ((p2.2 - p1.2) * step) (lineSteps p1 p2))

/-- The interior cells the source marks between two lighthouse positions
(`predict_enemy_movement`, lines 132–141); endpoints are skipped
(`range(1, steps)`). -/
def lineThreats (p1 p2 : Pos) (tz : List Pos) : List Pos :=
  let steps : ℕ := lineSteps p1 p2
  if 0 < steps ∧ steps ≤ 6 then
    (List.range' 1 (steps - 1)).foldl (fun tz step => setInsert tz (interpCell p1 p2 step)) tz
  else tz

/-- `BotGame.predict_enemy_movement`: accumulates threat zones for every pair
of lighthouses of each non-agent player id in `range(1, 5)`.  (The source's
`if enemy_lighthouses:` guard is vacuous — an empty list yields an empty pair
loop — and the dead local `current_turn` is dropped.) -/
def predict_enemy_movement (player : ℤ) (tz : List Pos) (t : NewTurn) : List Pos :=
  ([1, 2, 3, 4] : List ℤ).foldl (fun tz pid =>
    if pid = player then tz
    else
      let enemy_lighthouses := t.Lighthouses.filter (fun lh => lh.Owner = pid)
      pairsFoldl (fun tz lh1 lh2 => lineThreats lh1.Position lh2.Position tz)
        tz enemy_lighthouses) tz

/-- `BotGame.calculate_zone_control_value` (scores are exact in `ℚ`, see the
header comment on floats). -/
def calculate_zone_control_value (player : ℤ) (histLen : ℕ) (tz : List Pos)
    (pos : Pos) (lighthouses : List Lighthouse) : ℚ :=
  let x := pos.1; let y := pos.2
  let current_turn := histLen
  let value : ℚ := 0
  let value :=
    if pos ∈ corner_positions then
      value + 250 + (if current_turn < 25 then (100 : ℚ)
        else if current_turn > 60 then -50 else 0)
    else if x = 0 ∨ x = 14 ∨ y = 0 ∨ y = 14 then
      value + 60 + (if current_turn < 30 then (30 : ℚ) else 0)
    else if 6 ≤ x ∧ x ≤ 8 ∧ 6 ≤ y ∧ y ≤ 8 then
      value + 35 + (if 20 ≤ current_turn ∧ current_turn ≤ 50 then (20 : ℚ) else 0)
    else if ((x = 1 ∨ x = 13) ∧ 1 ≤ y ∧ y ≤ 13) ∨ ((y = 1 ∨ y = 13) ∧ 1 ≤ x ∧ x ≤ 13) then
      value + 25
    else value
  let owned_lighthouses := lighthouses.filter (fun lh => lh.Owner = player)
  let triangle_potential : ℚ := pairsFoldl (fun tp lh1 lh2 =>
    max tp (calculate_triangle_area pos lh1.Position lh2.Position)) 0 owned_lighthouses
  let value := value + triangle_potential * (3 / 2 : ℚ)
  let value := owned_lighthouses.foldl (fun v lh =>
    let distance : ℕ := (x - lh.Position.1).natAbs + (y - lh.Position.2).natAbs
    if distance ≤ 3 then v + ((max 0 (12 - (distance : ℤ) * 3) : ℤ) : ℚ) else v) value
  let value :=
    if pos ∈ tz then
      value - (if current_turn < 15 then (5 : ℚ) else if current_turn > 50 then 35 else 20)
    else value
  value

/-- The dynamic reserve computed inside `optimize_energy_allocation`
(lines 217–243): a phase-dependent base, raised when an opposing lighthouse is
within 2 cells, lowered when the agent owns at least 3 lighthouses, otherwise
raised by the threat multiplier. -/
def dynamicReserve (player : ℤ) (histLen : ℕ) (tz : List Pos) (t : NewTurn) : ℤ :=
  let current_turn := histLen
  let base_reserve : ℤ := if current_turn < 20 then 10 else if current_turn < 50 then 15 else 25
  let threat_multiplier : ℤ := (tz.length : ℤ) / 20
  let enemy_nearby := t.Lighthouses.any (fun lh =>
    decide ((lh.Position.1 - t.Position.1).natAbs + (lh.Position.2 - t.Position.2).natAbs ≤ 2)
    && (!decide (lh.Owner = player)) && (!decide (lh.Owner = 0)))
  let owned_lighthouses := (t.Lighthouses.filter (fun lh => lh.Owner = player)).length
  if enemy_nearby then base_reserve + 10
  else if owned_lighthouses ≥ 3 then max (base_reserve - 5) 5
  else base_reserve + threat_multiplier * 3

/-- `BotGame.optimize_energy_allocation`.  The float comparison
`target_energy_needed > current_energy * 0.7` is modelled exactly as
`10 * target > 7 * E` (see the header comment on floats). -/
def optimize_energy_allocation (player : ℤ) (histLen : ℕ) (tz : List Pos)
    (t : NewTurn) (target_energy_needed : ℤ) : ℤ :=
  let current_energy := t.Energy
  let dynamic_reserve : ℤ := dynamicReserve player histLen tz t
  let available_energy := max 0 (current_energy - dynamic_reserve)
  let available_energy :=
    if 10 * target_energy_needed > 7 * current_energy then
      min (current_energy - 5) (available_energy + 10)
    else available_energy
  min available_energy target_energy_needed

/-- `BotGame.find_blocking_positions` (midpoints use Python floor division). -/
def find_blocking_positions (player : ℤ) (t : NewTurn) : List (Pos × ℤ) :=
  let enemy_lighthouses := t.Lighthouses.filter (fun lh =>
    (!decide (lh.Owner = player)) && (!decide (lh.Owner = 0)))
  let blocking := pairsFoldl (fun bp lh1 lh2 =>
    if lh1.Owner = lh2.Owner then
      let mid : Pos := (Int.fdiv (lh1.Position.1 + lh2.Position.1) 2,
                        Int.fdiv (lh1.Position.2 + lh2.Position.2) 2)
      let v : ℤ :=
        if mid ∈ corner_positions then 100
        else if mid.1 = 0 ∨ mid.1 = 14 ∨ mid.2 = 0 ∨ mid.2 = 14 then 50
        else 25
      bp ++ [(mid, v)]
    else bp) [] enemy_lighthouses
  sortDescBy (fun a b => decide (b.2 ≤ a.2)) blocking

/-- `BotGame.update_lighthouse_rotation_queue`.  `list(set)` iteration order is
modelled as insertion order of the known-lighthouse registry. -/
def update_lighthouse_rotation_queue (known : List Pos) (queue : List Pos) : List Pos :=
  let all_lighthouse_positions := known
  if queue = [] then
    let corner_lighthouses := all_lighthouse_positions.filter
      (fun p => decide (p ∈ corner_positions))
    let edge_lighthouses := all_lighthouse_positions.filter (fun p =>
      (!decide (p ∈ corner_positions)) && decide (p.1 = 0 ∨ p.1 = 14 ∨ p.2 = 0 ∨ p.2 = 14))
    let other_lighthouses := all_lighthouse_positions.filter (fun p =>
      (!decide (p ∈ corner_lighthouses)) && (!decide (p ∈ edge_lighthouses)))
    corner_lighthouses ++ edge_lighthouses ++ other_lighthouses
  else
    all_lighthouse_positions.foldl (fun q p => if p ∈ q then q else q ++ [p]) queue

/-- The `while attempts < len(queue)` loop of `get_next_lighthouse_target`,
by recursion on the remaining attempt budget. -/
def get_next_aux (owned : List Pos) (lighthouses : List (Pos × Lighthouse)) (player : ℤ)
    (queue : List Pos) : ℕ → ℕ → Option Pos × ℕ
  | 0, _ => (queue.head?, 0)
  | k + 1, idx =>
    let idx := if idx ≥ queue.length then 0 else idx
    let target_pos := queue.getD idx (0, 0)
    if target_pos ∈ owned then
      let needs_defense := lighthouses.any (fun e =>
        (!decide (e.2.Owner = player)) && (!decide (e.2.Owner = 0)) &&
        decide ((e.2.Position.1 - target_pos.1).natAbs + (e.2.Position.2 - target_pos.2).natAbs ≤ 4))
      if needs_defense then (some target_pos, idx)
      else get_next_aux owned lighthouses player queue k (idx + 1)
    else (some target_pos, idx)

/-- `BotGame.get_next_lighthouse_target`; returns the chosen target and the
updated `current_target_index`. -/
def get_next_lighthouse_target (player : ℤ) (queue : List Pos) (idx : ℕ)
    (lighthouses : List (Pos × Lighthouse)) : Option Pos × ℕ :=
  if queue = [] then (none, idx)
  else
    let owned_lighthouses := (lighthouses.filter (fun e => e.2.Owner = player)).map
      (fun e => e.2.Position)
    get_next_aux owned_lighthouses lighthouses player queue queue.length idx

/-- `BotGame.find_best_connection` (exact rational scores; the fold keeps the
running `(best_target, max_score)` pair, updated on strict improvement exactly
as the source does; of the instance attributes the method reads only
`len(self.turn_history)` and `self.corner_positions`). -/
def find_best_connection (histLen : ℕ) (currentPos : Pos)
    (owned_lighthouses : List Lighthouse) : Option Pos :=
  let cx := currentPos.1; let cy := currentPos.2
  if owned_lighthouses.length < 2 then none
  else
    let current_turn := histLen
    let res := owned_lighthouses.foldl (fun acc target =>
      let target_pos := target.Position
      if target_pos = (cx, cy) then acc
      else owned_lighthouses.foldl (fun acc third =>
        let third_pos := third.Position
        if third_pos = (cx, cy) ∨ third_pos = target_pos then acc
        else
          let area := calculate_triangle_area (cx, cy) target_pos third_pos
          let corner_bonus : ℚ :=
            if target_pos ∈ corner_positions ∧ third_pos ∈ corner_positions then 150
            else if target_pos ∈ corner_positions ∨ third_pos ∈ corner_positions then 60
            else 0
          let corner_bonus := if current_turn < 30 then corner_bonus * (3 / 2) else corner_bonus
          let score := area + corner_bonus
          let edge_count : ℕ := (([target_pos, third_pos] : List Pos).filter (fun p =>
            decide (p.1 = 0 ∨ p.1 = 14 ∨ p.2 = 0 ∨ p.2 = 14))).length
          let score := score + (edge_count : ℚ) * 20
          let quadrants := (([(cx, cy), target_pos, third_pos] : List Pos).map
            (fun p => (decide (p.1 ≥ 7), decide (p.2 ≥ 7)))).dedup
          let score := if quadrants.length ≥ 2 then score + 40 else score
          let perimeter : ℕ := (cx - target_pos.1).natAbs + (cy - target_pos.2).natAbs
            + (target_pos.1 - third_pos.1).natAbs + (target_pos.2 - third_pos.2).natAbs
            + (third_pos.1 - cx).natAbs + (third_pos.2 - cy).natAbs
          let score := score + (perimeter : ℚ) * 2
          if score > acc.2 then (some target_pos, score) else acc) acc)
      ((none : Option Pos), (0 : ℚ))
    res.1

end MainBot

namespace MainBot

/-- The cross-turn state of `BotGame` that its decisions actually read
(write-only attributes are omitted, see the header). -/
structure BotState where
  player_num : ℤ
  lastX : ℤ
  lastY : ℤ
  known_lighthouse_positions : List Pos
  histLen : ℕ
  threat_zones : List Pos
  pathfinding_cache : List ((Pos × Pos × List Pos) × List Pos)
  lighthouse_target_queue : List Pos
  current_target_index : ℕ
  deriving DecidableEq, Repr

/-- The fresh state built by `BotGame.__init__`. -/
def initialBotState (player : ℤ) : BotState :=
  { player_num := player, lastX := 0, lastY := 0, known_lighthouse_positions := []
    histLen := 0, threat_zones := [], pathfinding_cache := []
    lighthouse_target_queue := [], current_target_index := 0 }

/-- The `possible_connections` filter of `new_turn_action` (lines 443–455):
keys of the lighthouse dict that are distinct from the agent's position, have
the key, have no existing connection back to the agent's position, and are
owned by the agent. -/
def possible_connections (player : ℤ) (pos : Pos) (lighthouses : List (Pos × Lighthouse)) :
    List Pos :=
  (lighthouses.filter (fun e =>
    (!decide (e.1 = pos)) && e.2.HaveKey &&
    (!(e.2.Connections.any (fun c => decide (c.1 = pos.1) && decide (c.2 = pos.2)))) &&
    decide (e.2.Owner = player))).map (·.1)

/-- The `should_defend` computation of `new_turn_action` (lines 495–505). -/
def should_defend (player : ℤ) (pos : Pos) (t : NewTurn) : Bool :=
  let owned_lighthouses := t.Lighthouses.filter (fun lh => lh.Owner = player)
  if owned_lighthouses.length ≤ 2 then true
  else t.Lighthouses.any (fun lh =>
    (!decide (lh.Owner = player)) && (!decide (lh.Owner = 0)) &&
    decide ((lh.Position.1 - pos.1).natAbs + (lh.Position.2 - pos.2).natAbs ≤ 3))

/-- The attack-energy computation shared by the two textually identical attack
sites of `new_turn_action` (lines 513–523 and 546–556). -/
def attackEnergy (player : ℤ) (histLen : ℕ) (tz : List Pos) (t : NewTurn)
    (lighthouse_energy : ℤ) : ℤ :=
  let min_energy := lighthouse_energy + 1
  let optimal_energy := optimize_energy_allocation player histLen tz t (min_energy + lighthouse_energy)
  if optimal_energy ≥ min_energy then min optimal_energy (t.Energy - energy_reserve)
  else min_energy

/-- The connection-selection logic of `new_turn_action` (lines 457–476);
`best_connection in strategic_connections` is `False` when `best_connection`
is `None`. -/
def chooseConnection (player : ℤ) (histLen : ℕ) (pos : Pos) (t : NewTurn)
    (possible : List Pos) (r : List ℕ) : Pos × List ℕ :=
  let owned_lighthouses := t.Lighthouses.filter (fun lh => lh.Owner = player)
  let best_connection := find_best_connection histLen pos owned_lighthouses
  let blocking_positions := find_blocking_positions player t
  let blocking_targets := blocking_positions.map (·.1)
  let strategic_connections := possible.filter (fun c => decide (c ∈ blocking_targets))
  match best_connection with
  | some b =>
    if strategic_connections ≠ [] ∧ b ∈ strategic_connections then (b, r)
    else if strategic_connections ≠ [] then (strategic_connections.getD 0 (0, 0), r)
    else if b ∈ possible then (b, r)
    else pyChoice possible r
  | none =>
    if strategic_connections ≠ [] then (strategic_connections.getD 0 (0, 0), r)
    else pyChoice possible r

/-- The evolving state of the `a_star_pathfind` search loop. -/
structure AStarState where
  openL : List (ℕ × Pos)
  cameFrom : Pos → Option Pos
  gScore : Pos → Option ℕ
  fScore : Pos → Option ℕ

/-- Strict lexicographic order on heap entries `(f, (x, y))`, as Python tuple
comparison orders them. -/
def entryLt (a b : ℕ × Pos) : Bool :=
  decide (a.1 < b.1) || (decide (a.1 = b.1) &&
    (decide (a.2.1 < b.2.1) || (decide (a.2.1 = b.2.1) && decide (a.2.2 < b.2.2))))

/-- `heapq.heappop`: remove and return a minimal entry.  Two distinct heap
entries never compare equal unless they are identical values, so returning the
leftmost minimum is observationally the same as any heap order. -/
def popMin (l : List (ℕ × Pos)) : Option ((ℕ × Pos) × List (ℕ × Pos)) :=
  match l with
  | [] => none
  | x :: xs =>
    let m := xs.foldl (fun m e => if entryLt e m then e else m) x
    some (m, l.erase m)

/-- The `while current in came_from` backtracking loop of the path
reconstruction (lines 93–96), building `[goal, …, n₁]` in append order. -/
def reconstructLoop : ℕ → (Pos → Option Pos) → Pos → Option (List Pos)
  | 0, _, _ => none
  | fuel + 1, cf, cur =>
    match cf cur with
    | none => some []
    | some p => (reconstructLoop fuel cf p).map (fun l => cur :: l)

/-- Iteration budget for the search loop; the source's `while open_set:` always
terminates on the 15×15 grid well inside this bound, and running out of budget
is reported as "no path" like an exhausted heap. -/
def aStarFuel : ℕ := 100000

/-- The relaxation of one neighbour (lines 102–112). -/
def relaxNeighbor (goal : Pos) (obstacles : List Pos) (cur : Pos) (gc : ℕ)
    (st : AStarState) (nb : Pos) : AStarState :=
  if nb ∈ obstacles then st
  else
    let tentative_g_score := gc + 1
    let improves := match st.gScore nb with
      | none => true
      | some gn => decide (tentative_g_score < gn)
    if improves then
      let fn := tentative_g_score + heuristic nb goal
      { openL := (fn, nb) :: st.openL
        cameFrom := fun p => if p = nb then some cur else st.cameFrom p
        gScore := fun p => if p = nb then some tentative_g_score else st.gScore p
        fScore := fun p => if p = nb then some fn else st.fScore p }
    else st

/-- The main `while open_set:` loop of `a_star_pathfind` (lines 89–113).
`g_score[current]` is always present when a node is popped (it is set before
every push), so the `getD` default is never exercised. -/
def aStarLoop (start goal : Pos) (obstacles : List Pos) :
    ℕ → AStarState → Option (List Pos)
  | 0, _ => none
  | fuel + 1, st =>
    match popMin st.openL with
    | none => none
    | some (e, rest) =>
      let current := e.2
      if current = goal then
        (reconstructLoop (aStarFuel + 1) st.cameFrom current).map
          (fun path => (path ++ [start]).reverse)
      else
        let gc := (st.gScore current).getD 0
        let st' := (get_neighbors current).foldl
          (relaxNeighbor goal obstacles current gc) { st with openL := rest }
        aStarLoop start goal obstacles fuel st'

/-- The uncached part of `a_star_pathfind`: initial open set `[(0, start)]`,
initial `g_score`/`f_score` for `start` only, then the loop. -/
def a_star_search (start goal : Pos) (obstacles : List Pos) : Option (List Pos) :=
  let st0 : AStarState :=
    { openL := [(0, start)]
      cameFrom := fun _ => none
      gScore := fun p => if p = start then some 0 else none
      fScore := fun p => if p = start then some (heuristic start goal) else none }
  aStarLoop start goal obstacles aStarFuel st0

/-- Ascending-lexicographic comparison used by `tuple(sorted(obstacles))`. -/
def posLe (a b : Pos) : Bool := decide (a.1 < b.1) || (decide (a.1 = b.1) && decide (a.2 ≤ b.2))

/-- Stable ascending insertion for `sortedObstacles`. -/
def insertAsc (x : Pos) : List Pos → List Pos
  | [] => [x]
  | y :: ys => if posLe y x then y :: insertAsc x ys else x :: y :: ys

/-- `tuple(sorted(obstacles))`: the canonical cache-key form of the obstacle
set. -/
def sortedObstacles (l : List Pos) : List Pos := l.foldl (fun acc x => insertAsc x acc) []

/-- `BotGame.a_star_pathfind` with its result cache (lines 73–114): cache
lookup first, then the `start == goal` early-out (not cached), then the search
(successful results are cached; `None` is not). -/
def a_star_pathfind (cache : List ((Pos × Pos × List Pos) × List Pos))
    (start goal : Pos) (obstacles : List Pos) :
    Option (List Pos) × List ((Pos × Pos × List Pos) × List Pos) :=
  let cache_key : Pos × Pos × List Pos := (start, goal, sortedObstacles obstacles)
  match (cache.find? (fun e => decide (e.1 = cache_key))).map (·.2) with
  | some path => (some path, cache)
  | none =>
    if start = goal then (some [start], cache)
    else
      match a_star_search start goal obstacles with
      | some path => (some path, (cache_key, path) :: cache)
      | none => (none, cache)

end MainBot

namespace MainBot

/-- `next((value for pos, value in blocking_positions if pos == lh_pos), 0)`. -/
def blockingBonusAt (blocking : List (Pos × ℤ)) (p : Pos) : ℤ :=
  ((blocking.find? (fun e => decide (e.1 = p))).map (·.2)).getD 0

/-- The `valid_moves` filter of the boundary correction (lines 737–746). -/
def validMovesAt (pos last : Pos) : List (ℤ × ℤ) :=
  moveOffsets.filter (fun d =>
    inBounds (pos.1 + d.1, pos.2 + d.2) &&
    !decide (((pos.1 + d.1, pos.2 + d.2) : Pos) = last))

/-- The tail of the movement logic (lines 716–771): apply the computed step,
redraw if the result equals `(self.lastX, self.lastY)`, correct out-of-bounds
results among valid moves, and fall back to `PASS` when no valid move exists. -/
def finalizeMove (posX posY lastX lastY : ℤ) (move : ℤ × ℤ) (r : List ℕ) :
    NewAction × List ℕ :=
  let new0 : Pos := (posX + move.1, posY + move.2)
  let step1 : Pos × List ℕ :=
    if new0 = ((lastX, lastY) : Pos) then
      let alternative_moves := moveOffsets.filter (fun d =>
        !decide (((posX + d.1, posY + d.2) : Pos) = ((lastX, lastY) : Pos)))
      if alternative_moves ≠ [] then
        let c := pyChoice alternative_moves r
        (((posX + c.1.1, posY + c.1.2) : Pos), c.2)
      else (new0, r)
    else (new0, r)
  if !inBounds step1.1 then
    let valid_moves := validMovesAt (posX, posY) (lastX, lastY)
    if valid_moves ≠ [] then
      let c := pyChoice valid_moves step1.2
      (.move (posX + c.1.1, posY + c.1.2), c.2)
    else (.halt (posX, posY), step1.2)
  else (.move step1.1, step1.2)

/-- The movement fall-through of `new_turn_action` (lines 571–771), up to the
computed step: rotation target, urgent overrides, A* routing (obstacles =
threat zones) with direct stepping as fallback, and strategic neighbour
scoring when no target exists.  Returns the chosen step offset, the updated
rotation cursor, the updated pathfinding cache, and the remaining oracle. -/
def movementStep (s : BotState) (lighthouses : List (Pos × Lighthouse)) (t : NewTurn)
    (r : List ℕ) : (ℤ × ℤ) × ℕ × List ((Pos × Pos × List Pos) × List Pos) × List ℕ :=
  let cx := t.Position.1; let cy := t.Position.2
  let current_turn := s.histLen
  let rotState := get_next_lighthouse_target s.player_num s.lighthouse_target_queue
    s.current_target_index lighthouses
  let rotation_target := rotState.1
  let idx1 := rotState.2
  let blocking_positions := find_blocking_positions s.player_num t
  let urgent_targets := t.Lighthouses.foldl (fun acc lh =>
    let lh_pos := lh.Position
    let distance_to_target : ℕ := (cx - lh_pos.1).natAbs + (cy - lh_pos.2).natAbs
    let skip : Bool := match rotation_target with
      | some rt => decide (distance_to_target > ((cx - rt.1).natAbs + (cy - rt.2).natAbs) * 2)
      | none => false
    if skip then acc
    else
      let urgency_score : ℤ :=
        (if lh.Owner = 0 ∧ lh_pos ∈ corner_positions ∧ current_turn < 25 then 200 else 0)
        + (if lh.Owner ≠ s.player_num ∧ lh.Owner ≠ 0 ∧
              blockingBonusAt blocking_positions lh_pos ≥ 50 then 150 else 0)
        + (if lh.Owner ≠ s.player_num then
            let required_energy := if lh.Owner ≠ 0 then lh.Energy + 1 else 1
            let available_energy := optimize_energy_allocation s.player_num s.histLen
              s.threat_zones t required_energy
            if available_energy ≥ required_energy ∧ distance_to_target ≤ 3 then 100 else 0
          else 0)
      if urgency_score ≥ 150 then acc ++ [(lh_pos, urgency_score, distance_to_target)]
      else acc) []
  let chosen : Option Pos × ℕ :=
    if urgent_targets ≠ [] then
      -- `urgent_targets.sort(key=lambda x: (-x[1], x[2]))` then `[0]`: the first
      -- element with lexicographically minimal key; the fold keeps the earliest
      -- among ties, matching the stable sort.
      let top := urgent_targets.foldl (fun m x =>
        match m with
        | none => some x
        | some m' => if x.2.1 > m'.2.1 ∨ (x.2.1 = m'.2.1 ∧ x.2.2 < m'.2.2) then some x
            else some m') none
      (top.map (·.1), (idx1 + 1) % max 1 s.lighthouse_target_queue.length)
    else (rotation_target, idx1)
  let best_lighthouse := chosen.1
  let idx2 := chosen.2
  match best_lighthouse with
  | some bl =>
    let obstacles := s.threat_zones
    let found := a_star_pathfind s.pathfinding_cache (cx, cy) bl obstacles
    let fallback_move : ℤ × ℤ :=
      ((if bl.1 = cx then 0 else if bl.1 > cx then 1 else -1),
       (if bl.2 = cy then 0 else if bl.2 > cy then 1 else -1))
    match found.1 with
    | some path =>
      if path.length > 1 then
        let next_pos := path.getD 1 (0, 0)
        let idx3 :=
          if some bl = rotation_target ∧
              (cx - bl.1).natAbs + (cy - bl.2).natAbs ≤ 2 then
            (idx2 + 1) % max 1 s.lighthouse_target_queue.length
          else idx2
        ((next_pos.1 - cx, next_pos.2 - cy), idx3, found.2, r)
      else (fallback_move, idx2, found.2, r)
    | none => (fallback_move, idx2, found.2, r)
  | none =>
    let strategic_moves := moveOffsets.foldl (fun acc d =>
      let test_pos : Pos := (cx + d.1, cy + d.2)
      if inBounds test_pos then
        let zone_value := calculate_zone_control_value s.player_num s.histLen
          s.threat_zones test_pos t.Lighthouses
        let zone_value :=
          if current_turn < 20 then
            if test_pos ∈ corner_positions then zone_value + 150
            else if test_pos.1 = 0 ∨ test_pos.1 = 14 ∨ test_pos.2 = 0 ∨ test_pos.2 = 14 then
              zone_value + 75
            else zone_value
          else zone_value
        let zone_value := if test_pos ∈ s.threat_zones then zone_value - 30 else zone_value
        let zone_value :=
          if test_pos ∉ s.known_lighthouse_positions then zone_value + 20 else zone_value
        acc ++ [(d, zone_value)]
      else acc) []
    let moved : (ℤ × ℤ) × List ℕ :=
      if strategic_moves ≠ [] then
        let sortedMoves := sortDescBy (fun a b => decide (b.2 ≤ a.2)) strategic_moves
        if sortedMoves.length > 1 ∧ current_turn > 10 then
          -- `random.random() < 0.7` modelled as a mod-10 oracle draw
          let k := draw r
          if k.1 % 10 < 7 then ((sortedMoves.getD 0 ((0, 0), 0)).1, k.2)
          else ((sortedMoves.getD 1 ((0, 0), 0)).1, k.2)
        else ((sortedMoves.getD 0 ((0, 0), 0)).1, r)
      else if current_turn < 15 then
        let edge_moves := moveOffsets.filter (fun d =>
          let nx := cx + d.1; let ny := cy + d.2
          inBounds (nx, ny) && decide (min (min nx ny) (min (14 - nx) (14 - ny)) ≤ 2))
        if edge_moves ≠ [] then pyChoice edge_moves r
        else pyChoice moveOffsets r
      else pyChoice moveOffsets r
    (moved.1, idx2, s.pathfinding_cache, moved.2)

/-- The movement fall-through of `new_turn_action` (lines 571–771): the step
chosen by `movementStep`, finalised by `finalizeMove`.  `s` is the state after
the start-of-turn updates (so `s.lastX/lastY` already hold the *current*
position, as in the source). -/
def movementPhase (s : BotState) (lighthouses : List (Pos × Lighthouse)) (t : NewTurn)
    (r : List ℕ) : NewAction × BotState × List ℕ :=
  let step := movementStep s lighthouses t r
  let s2 := { s with current_target_index := step.2.1, pathfinding_cache := step.2.2.1 }
  let fin := finalizeMove t.Position.1 t.Position.2 s.lastX s.lastY step.1 step.2.2.2
  (fin.1, s2, fin.2)

/-- The start-of-turn state updates of `new_turn_action` (lines 410–437):
record the current position in `lastX/lastY`, extend the turn history,
update the threat zones, memorise lighthouse positions, and refresh the
rotation queue. -/
def turnState (s : BotState) (t : NewTurn) : BotState :=
  let cx := t.Position.1; let cy := t.Position.2
  let s := { s with lastY := cy, lastX := cx }
  let s := { s with histLen := s.histLen + 1 }
  let s := { s with threat_zones := predict_enemy_movement s.player_num s.threat_zones t }
  let known := t.Lighthouses.foldl (fun ks (lh : Lighthouse) => setInsert ks lh.Position)
    s.known_lighthouse_positions
  let s := { s with known_lighthouse_positions := known }
  let queue := update_lighthouse_rotation_queue s.known_lighthouse_positions
    s.lighthouse_target_queue
  { s with lighthouse_target_queue := queue }

/-- `BotGame.new_turn_action` (`src/main.py`, lines 409–771). -/
def new_turn_action (s : BotState) (t : NewTurn) (r : List ℕ) :
    NewAction × BotState × List ℕ :=
  let cx := t.Position.1; let cy := t.Position.2
  let s := turnState s t
  let lighthouses := buildLighthouseDict t.Lighthouses
  match dictGet? lighthouses (cx, cy) with
  | some lhHere =>
    if lhHere.Owner = s.player_num then
      let possible := possible_connections s.player_num (cx, cy) lighthouses
      if possible ≠ [] then
        let sel := chooseConnection s.player_num s.histLen (cx, cy) t possible r
        (.connect sel.1, s, sel.2)
      else
        -- `if not should_defend: <fall through to movement> else: <attack/pass>`
        if should_defend s.player_num (cx, cy) t then
          if t.Energy > lhHere.Energy then
            (.attack (attackEnergy s.player_num s.histLen s.threat_zones t lhHere.Energy)
              (cx, cy), s, r)
          else
            (.halt (cx, cy), s, r)
        else
          movementPhase s lighthouses t r
    else
      if t.Energy > lhHere.Energy then
        (.attack (attackEnergy s.player_num s.histLen s.threat_zones t lhHere.Energy)
          (cx, cy), s, r)
      else
        movementPhase s lighthouses t r
  | none => movementPhase s lighthouses t r

end MainBot


namespace MainBot

/-- One step of a returned path: distinct cells, 8-adjacent, landing in bounds
and off the obstacle set. -/
def validStep (obstacles : List Pos) (a b : Pos) : Prop :=
  a ≠ b ∧ (a.1 - b.1).natAbs ≤ 1 ∧ (a.2 - b.2).natAbs ≤ 1 ∧ inBounds b = true ∧
  b ∉ obstacles

/-- The shape of the list collected by `reconstructLoop`: each element is the
node visited at that step, each step follows a `came_from` edge, and the walk
ends on a node with no `came_from` entry. -/
def chainOK (cf : Pos → Option Pos) : Pos → List Pos → Prop
  | cur, [] => cf cur = none
  | cur, a :: rest => a = cur ∧ ∃ p, cf cur = some p ∧ chainOK cf p rest

/-- Invariant of the A* search loop giving path validity: every `came_from`
edge runs along an unobstructed neighbour link, every chain of edges is rooted
at `start`, `start` keeps `g = 0` and no `came_from` entry, and every open
node is `start` or has a `came_from` entry. -/
structure AStarInv (start : Pos) (obstacles : List Pos) (st : AStarState) : Prop where
  edges : ∀ n p, st.cameFrom n = some p → n ∈ get_neighbors p ∧ n ∉ obstacles
  rooted : ∀ n p, st.cameFrom n = some p → p = start ∨ st.cameFrom p ≠ none
  gstart : st.gScore start = some 0
  openRooted : ∀ e ∈ st.openL, e.2 = start ∨ st.cameFrom e.2 ≠ none
  startCF : st.cameFrom start = none

end MainBot

/-! ### Concrete inputs used by the claim counterexamples and witnesses -/

/-- C1 counterexample input: the random bot in a corner with no lighthouses. -/
def turnC1 : NewTurn := { Position := (0, 0), Energy := 50, Lighthouses := [] }

/-- C1 witness input: the main bot in the open with no lighthouses. -/
def turnC1w : NewTurn := { Position := (7, 7), Energy := 50, Lighthouses := [] }

/-- C2/C3 counterexample input: the agent stands on an unowned lighthouse of
energy 1 with 19 energy while owning three remote lighthouses. -/
def turnC2 : NewTurn :=
  { Position := (7, 7), Energy := 19, Lighthouses :=
    [ { Position := (7, 7), Owner := 0, Energy := 1, HaveKey := false, Connections := [] },
      { Position := (0, 0), Owner := 1, Energy := 30, HaveKey := false, Connections := [] },
      { Position := (0, 5), Owner := 1, Energy := 30, HaveKey := false, Connections := [] },
      { Position := (5, 0), Owner := 1, Energy := 30, HaveKey := false, Connections := [] } ] }

/-- C2/C3 witness input: an affordable unowned lighthouse under a rich agent. -/
def turnC2w : NewTurn :=
  { Position := (7, 7), Energy := 100, Lighthouses :=
    [ { Position := (7, 7), Owner := 0, Energy := 1, HaveKey := false, Connections := [] } ] }

/-- The already-connected destination lighthouse of the C4 failing input. -/
def lhC4dest : Lighthouse :=
  { Position := (5, 5), Owner := 1, Energy := 10, HaveKey := true, Connections := [(0, 0)] }

/-- C4 failing input: the random bot stands on its own lighthouse at (0,0); the
lighthouse at (5,5) is owned, has the key, and already lists (0,0) among its
connections. -/
def turnC4 : NewTurn :=
  { Position := (0, 0), Energy := 50, Lighthouses :=
    [ { Position := (0, 0), Owner := 1, Energy := 10, HaveKey := false, Connections := [] },
      lhC4dest ] }

/-- C6 counterexample input: an enemy lighthouse adjacent to the agent raises
the reserve to 20 while the agent holds 19 energy. -/
def turnC6 : NewTurn :=
  { Position := (3, 3), Energy := 19, Lighthouses :=
    [ { Position := (3, 4), Owner := 2, Energy := 5, HaveKey := false, Connections := [] } ] }

/-- C6 witness input: low energy, no lighthouses in sight. -/
def turnC6w : NewTurn := { Position := (4, 4), Energy := 3, Lighthouses := [] }

/-- C7 counterexample input: the agent defends its only lighthouse with no
energy to recharge it; every neighbouring cell is in bounds. -/
def turnC7 : NewTurn :=
  { Position := (7, 7), Energy := 0, Lighthouses :=
    [ { Position := (7, 7), Owner := 1, Energy := 5, HaveKey := false, Connections := [] } ] }

/-- C8 counterexample, turn 1: the agent at (5,5) next to an unowned lighthouse
at (5,6) that it cannot afford to attack. -/
def turnC8a : NewTurn :=
  { Position := (5, 5), Energy := 50, Lighthouses :=
    [ { Position := (5, 6), Owner := 0, Energy := 100, HaveKey := false, Connections := [] } ] }

/-- C8 counterexample, turn 2: the same snapshot seen from (5,6). -/
def turnC8b : NewTurn :=
  { Position := (5, 6), Energy := 50, Lighthouses :=
    [ { Position := (5, 6), Owner := 0, Energy := 100, HaveKey := false, Connections := [] } ] }

/-- The bot state after the first C8 turn. -/
def stateC8 : MainBot.BotState :=
  (MainBot.new_turn_action (MainBot.initialBotState 1) turnC8a []).2.1

/-- C9 counterexample input: two lighthouses of a player with id 5. -/
def turnC9 : NewTurn :=
  { Position := (7, 7), Energy := 50, Lighthouses :=
    [ { Position := (0, 0), Owner := 5, Energy := 5, HaveKey := false, Connections := [] },
      { Position := (0, 2), Owner := 5, Energy := 5, HaveKey := false, Connections := [] } ] }

/-- C9 witness input: the same two lighthouses owned by player 2. -/
def turnC9w : NewTurn :=
  { Position := (7, 7), Energy := 50, Lighthouses :=
    [ { Position := (0, 0), Owner := 2, Energy := 5, HaveKey := false, Connections := [] },
      { Position := (0, 2), Owner := 2, Energy := 5, HaveKey := false, Connections := [] } ] }

namespace MainBot

/-- Sign step helper for the canonical geodesic: `-1`, `0`, or `1`. -/
def sgn (d : ℤ) : ℤ := if d < 0 then -1 else if d = 0 then 0 else 1

/-- The canonical diagonal-first geodesic from `start` towards `goal`: after
`j` steps each coordinate has advanced `min j |Δ|` cells towards the goal. -/
def chainNode (start goal : Pos) (j : ℕ) : Pos :=
  (start.1 + sgn (goal.1 - start.1) * min (j : ℤ) ((goal.1 - start.1).natAbs : ℤ),
   start.2 + sgn (goal.2 - start.2) * min (j : ℤ) ((goal.2 - start.2).natAbs : ℤ))

/-- The `f`-value of the heap entry that carries the `j`-th chain node: the
initial entry is pushed with priority `0`, later ones with `g + h`. -/
def fEntry (start goal : Pos) : ℕ → ℕ
  | 0 => 0
  | k + 1 => (k + 1) + heuristic (chainNode start goal (k + 1)) goal

/-- Search-loop invariant on the obstacle-free grid after `j` expansions: the
open list holds the `j`-th chain entry and every other entry is strictly above
all chain `f`-values from stage `j` on; `g_score`/`came_from` record exactly
the chain prefix, and every `g`-assigned cell is within Chebyshev distance `j`
of `start`. -/
structure ChainInv (start goal : Pos) (j : ℕ) (st : AStarState) : Prop where
  heap : ∃ l1 l2,
    st.openL = l1 ++ (fEntry start goal j, chainNode start goal j) :: l2 ∧
    ∀ e ∈ l1 ++ l2, ∀ k, j ≤ k → k ≤ chebyshev start goal → fEntry start goal k < e.1
  gchain : ∀ k, k ≤ j → st.gScore (chainNode start goal k) = some k
  greach : ∀ p, st.gScore p ≠ none → chebyshev start p ≤ j
  cfchain : ∀ k, 1 ≤ k → k ≤ j →
    st.cameFrom (chainNode start goal k) = some (chainNode start goal (k - 1))
  cfstart : st.cameFrom start = none

/-- Intermediate invariant while the neighbours of the `j`-th chain node are
being relaxed: the chain prefix facts persist, reach extends to `j + 1`, and
the `(j+1)`-st chain node is either still untouched (with every open entry
strictly above the later chain `f`-values) or already relaxed exactly once. -/
structure ChainFoldInv (start goal : Pos) (j : ℕ) (st : AStarState) : Prop where
  gchain : ∀ k, k ≤ j → st.gScore (chainNode start goal k) = some k
  greach : ∀ p, st.gScore p ≠ none → chebyshev start p ≤ j + 1
  cfchain : ∀ k, 1 ≤ k → k ≤ j →
    st.cameFrom (chainNode start goal k) = some (chainNode start goal (k - 1))
  cfstart : st.cameFrom start = none
  tip : (st.gScore (chainNode start goal (j + 1)) = none ∧
      ∀ e ∈ st.openL, ∀ k, j + 1 ≤ k → k ≤ chebyshev start goal →
        fEntry start goal k < e.1) ∨
    (st.gScore (chainNode start goal (j + 1)) = some (j + 1) ∧
     st.cameFrom (chainNode start goal (j + 1)) = some (chainNode start goal j) ∧
     ∃ l1 l2,
       st.openL = l1 ++ (fEntry start goal (j + 1), chainNode start goal (j + 1)) :: l2 ∧
       ∀ e ∈ l1 ++ l2, ∀ k, j + 1 ≤ k → k ≤ chebyshev start goal →
         fEntry start goal k < e.1)

end MainBot

namespace MainBot

lemma pyChoice_mem {α : Type} [Inhabited α] (l : List α) (r : List ℕ) (h : l ≠ []) :
    (pyChoice l r).1 ∈ l := by
  unfold pyChoice
  have hlen : 0 < l.length := List.length_pos.mpr h
  have hlt : (draw r).1 % l.length < l.length := Nat.mod_lt _ hlen
  simp only [List.getD_eq_getElem?_getD, List.getElem?_eq_getElem hlt, Option.getD_some]
  exact List.getElem_mem hlt

lemma getD_zero_mem {α : Type} (l : List α) (d : α) (h : l ≠ []) : l.getD 0 d ∈ l := by
  cases l with
  | nil => exact absurd rfl h
  | cons a as => simp [List.getD]

lemma validMovesAt_spec {pos last : Pos} {d : ℤ × ℤ} (h : d ∈ validMovesAt pos last) :
    inBounds (pos.1 + d.1, pos.2 + d.2) = true ∧ ((pos.1 + d.1, pos.2 + d.2) : Pos) ≠ last := by
  unfold validMovesAt at h
  have := List.of_mem_filter h
  simp only [Bool.and_eq_true, Bool.not_eq_true', decide_eq_false_iff_not] at this
  exact this

lemma validMovesAt_ne_nil {pos : Pos} (h : inBounds pos = true) :
    validMovesAt pos pos ≠ [] := by
  simp only [inBounds, map_width, map_height, Bool.and_eq_true, decide_eq_true_eq] at h
  apply List.ne_nil_of_mem
    (a := if (1 : ℤ) ≤ pos.1 then ((-1 : ℤ), (0 : ℤ)) else ((1 : ℤ), (0 : ℤ)))
  by_cases hx : (1 : ℤ) ≤ pos.1
  · rw [if_pos hx]
    apply List.mem_filter.mpr
    refine ⟨by simp [moveOffsets], ?_⟩
    simp only [inBounds, map_width, map_height, Bool.and_eq_true, decide_eq_true_eq,
      Bool.not_eq_true', decide_eq_false_iff_not, Prod.ext_iff]
    omega
  · rw [if_neg hx]
    apply List.mem_filter.mpr
    refine ⟨by simp [moveOffsets], ?_⟩
    simp only [inBounds, map_width, map_height, Bool.and_eq_true, decide_eq_true_eq,
      Bool.not_eq_true', decide_eq_false_iff_not, Prod.ext_iff]
    omega

end MainBot

namespace MainBot

lemma finalizeMove_spec (px py : ℤ) (mv : ℤ × ℤ) (r : List ℕ) :
    ((finalizeMove px py px py mv r).1 = .halt (px, py) ∧
      validMovesAt (px, py) (px, py) = []) ∨
    (∃ d, (finalizeMove px py px py mv r).1 = .move d ∧ inBounds d = true ∧
      d ≠ ((px, py) : Pos)) := by
  have core : ∀ (new1 : Pos) (r1 : List ℕ), new1 ≠ ((px, py) : Pos) →
      (((if !inBounds new1 then
          if validMovesAt (px, py) (px, py) ≠ [] then
            ((.move (px + (pyChoice (validMovesAt (px, py) (px, py)) r1).1.1,
               py + (pyChoice (validMovesAt (px, py) (px, py)) r1).1.2) : NewAction),
              (pyChoice (validMovesAt (px, py) (px, py)) r1).2)
          else (.halt (px, py), r1)
        else (.move new1, r1)) : NewAction × List ℕ).1 = .halt (px, py) ∧
          validMovesAt (px, py) (px, py) = []) ∨
      (∃ d, ((if !inBounds new1 then
          if validMovesAt (px, py) (px, py) ≠ [] then
            ((.move (px + (pyChoice (validMovesAt (px, py) (px, py)) r1).1.1,
               py + (pyChoice (validMovesAt (px, py) (px, py)) r1).1.2) : NewAction),
              (pyChoice (validMovesAt (px, py) (px, py)) r1).2)
          else (.halt (px, py), r1)
        else (.move new1, r1) : NewAction × List ℕ)).1 = .move d ∧ inBounds d = true ∧
          d ≠ ((px, py) : Pos)) := by
    intro new1 r1 hne
    by_cases hb : inBounds new1 = true
    · rw [if_neg (by simp [hb])]
      exact Or.inr ⟨new1, rfl, hb, hne⟩
    · rw [if_pos (by simp [hb])]
      by_cases hv : validMovesAt (px, py) (px, py) ≠ []
      · rw [if_pos hv]
        refine Or.inr ⟨_, rfl, ?_, ?_⟩
        · exact (validMovesAt_spec (pyChoice_mem _ _ hv)).1
        · exact (validMovesAt_spec (pyChoice_mem _ _ hv)).2
      · rw [if_neg hv]
        exact Or.inl ⟨rfl, by simpa using hv⟩
  show _
  unfold finalizeMove
  simp only []
  by_cases h0 : ((px + mv.1, py + mv.2) : Pos) = ((px, py) : Pos)
  · rw [if_pos h0]
    have hanz : (moveOffsets.filter (fun d =>
        !decide (((px + d.1, py + d.2) : Pos) = ((px, py) : Pos)))) ≠ [] := by
      apply List.ne_nil_of_mem (a := ((-1 : ℤ), (-1 : ℤ)))
      apply List.mem_filter.mpr
      refine ⟨by simp [moveOffsets], ?_⟩
      simp only [Bool.not_eq_true', decide_eq_false_iff_not, Prod.ext_iff]
      omega
    rw [if_pos hanz]
    set alt := moveOffsets.filter (fun d =>
      !decide (((px + d.1, py + d.2) : Pos) = ((px, py) : Pos))) with halt_eq
    have hmem := pyChoice_mem alt r hanz
    have hne : ((px + (pyChoice alt r).1.1, py + (pyChoice alt r).1.2) : Pos) ≠
        ((px, py) : Pos) := by
      have := List.of_mem_filter hmem
      simpa only [Bool.not_eq_true', decide_eq_false_iff_not] using this
    exact core _ _ hne
  · rw [if_neg h0]
    exact core _ _ h0

end MainBot

namespace MainBot

lemma chooseConnection_mem (player : ℤ) (histLen : ℕ) (pos : Pos) (t : NewTurn)
    (possible : List Pos) (r : List ℕ) (h : possible ≠ []) :
    (chooseConnection player histLen pos t possible r).1 ∈ possible := by
  simp only [chooseConnection]
  split
  · split
    · rename_i hmem
      exact List.mem_of_mem_filter hmem.2
    · split
      · rename_i hne
        exact List.mem_of_mem_filter (getD_zero_mem _ _ hne)
      · split
        · rename_i hmem
          exact hmem
        · exact pyChoice_mem _ _ h
  · split
    · rename_i hne
      exact List.mem_of_mem_filter (getD_zero_mem _ _ hne)
    · exact pyChoice_mem _ _ h

end MainBot


namespace MainBot

lemma movementPhase_spec (s : BotState) (lighthouses : List (Pos × Lighthouse))
    (t : NewTurn) (r : List ℕ) (hlx : s.lastX = t.Position.1)
    (hly : s.lastY = t.Position.2) :
    (((movementPhase s lighthouses t r).1 = .halt t.Position ∧
        validMovesAt t.Position t.Position = []) ∨
      (∃ d, (movementPhase s lighthouses t r).1 = .move d ∧ inBounds d = true ∧
        d ≠ t.Position)) ∧
    (movementPhase s lighthouses t r).2.1.threat_zones = s.threat_zones ∧
    (movementPhase s lighthouses t r).2.1.player_num = s.player_num ∧
    (movementPhase s lighthouses t r).2.1.histLen = s.histLen := by
  refine ⟨?_, rfl, rfl, rfl⟩
  have h2 : (movementPhase s lighthouses t r).1 =
      (finalizeMove t.Position.1 t.Position.2 s.lastX s.lastY
        (movementStep s lighthouses t r).1 (movementStep s lighthouses t r).2.2.2).1 := rfl
  rw [h2, hlx, hly]
  have := finalizeMove_spec t.Position.1 t.Position.2
    (movementStep s lighthouses t r).1 (movementStep s lighthouses t r).2.2.2
  rwa [Prod.mk.eta] at this

end MainBot

namespace MainBot

theorem new_turn_action_spec (s : BotState) (t : NewTurn) (r : List ℕ) :
    (new_turn_action s t r).2.1.threat_zones = (turnState s t).threat_zones ∧
    (new_turn_action s t r).2.1.player_num = s.player_num ∧
    (new_turn_action s t r).2.1.histLen = s.histLen + 1 ∧
    ((∃ d lh, (new_turn_action s t r).1 = .connect d ∧
        dictGet? (buildLighthouseDict t.Lighthouses) t.Position = some lh ∧
        lh.Owner = s.player_num ∧
        d ∈ possible_connections s.player_num t.Position (buildLighthouseDict t.Lighthouses)) ∨
      (∃ lh, (new_turn_action s t r).1 =
          .attack (attackEnergy s.player_num (s.histLen + 1) (turnState s t).threat_zones t
            lh.Energy) t.Position ∧
        dictGet? (buildLighthouseDict t.Lighthouses) t.Position = some lh ∧
        t.Energy > lh.Energy) ∨
      ((new_turn_action s t r).1 = .halt t.Position ∧
        ((∃ lh, dictGet? (buildLighthouseDict t.Lighthouses) t.Position = some lh ∧
            lh.Owner = s.player_num ∧
            possible_connections s.player_num t.Position (buildLighthouseDict t.Lighthouses)
              = [] ∧
            should_defend s.player_num t.Position t = true ∧ ¬ t.Energy > lh.Energy) ∨
          validMovesAt t.Position t.Position = [])) ∨
      (∃ d, (new_turn_action s t r).1 = .move d ∧ inBounds d = true ∧ d ≠ t.Position)) := by
  have hpn : (turnState s t).player_num = s.player_num := rfl
  have hhl : (turnState s t).histLen = s.histLen + 1 := rfl
  cases hdg : dictGet? (buildLighthouseDict t.Lighthouses) (t.Position.1, t.Position.2) with
  | none =>
    have hbody : new_turn_action s t r =
        movementPhase (turnState s t) (buildLighthouseDict t.Lighthouses) t r := by
      unfold new_turn_action
      simp only [hdg]
    rw [hbody]
    have hmp := movementPhase_spec (turnState s t) (buildLighthouseDict t.Lighthouses) t r
      rfl rfl
    refine ⟨hmp.2.1, hmp.2.2.1.trans hpn, hmp.2.2.2.trans hhl, ?_⟩
    rcases hmp.1 with ⟨hh, hv⟩ | ⟨d, hd⟩
    · exact Or.inr (Or.inr (Or.inl ⟨hh, Or.inr hv⟩))
    · exact Or.inr (Or.inr (Or.inr ⟨d, hd⟩))
  | some lh =>
    by_cases hown : lh.Owner = s.player_num
    · by_cases hposs : possible_connections s.player_num (t.Position.1, t.Position.2)
        (buildLighthouseDict t.Lighthouses) ≠ []
      · have hbody : new_turn_action s t r =
            (.connect (chooseConnection s.player_num (s.histLen + 1)
                (t.Position.1, t.Position.2) t
                (possible_connections s.player_num (t.Position.1, t.Position.2)
                  (buildLighthouseDict t.Lighthouses)) r).1, turnState s t,
              (chooseConnection s.player_num (s.histLen + 1) (t.Position.1, t.Position.2) t
                (possible_connections s.player_num (t.Position.1, t.Position.2)
                  (buildLighthouseDict t.Lighthouses)) r).2) := by
          unfold new_turn_action
          simp only [hdg, hpn, hhl, if_pos hown, if_pos hposs]
        rw [hbody]
        refine ⟨rfl, hpn, hhl, Or.inl ⟨_, lh, rfl, rfl, hown, ?_⟩⟩
        exact chooseConnection_mem _ _ _ _ _ _ hposs
      · have hposseq : possible_connections s.player_num (t.Position.1, t.Position.2)
            (buildLighthouseDict t.Lighthouses) = [] := not_not.mp hposs
        by_cases hdef : should_defend s.player_num (t.Position.1, t.Position.2) t = true
        · by_cases hE : t.Energy > lh.Energy
          · have hbody : new_turn_action s t r =
                (.attack (attackEnergy s.player_num (s.histLen + 1)
                    (turnState s t).threat_zones t lh.Energy) (t.Position.1, t.Position.2),
                  turnState s t, r) := by
              unfold new_turn_action
              simp only [hdg, hpn, hhl, if_pos hown, if_neg hposs, if_pos hdef, if_pos hE]
            rw [hbody]
            exact ⟨rfl, hpn, hhl, Or.inr (Or.inl ⟨lh, rfl, rfl, hE⟩)⟩
          · have hbody : new_turn_action s t r =
                (.halt (t.Position.1, t.Position.2), turnState s t, r) := by
              unfold new_turn_action
              simp only [hdg, hpn, hhl, if_pos hown, if_neg hposs, if_pos hdef, if_neg hE]
            rw [hbody]
            exact ⟨rfl, hpn, hhl,
              Or.inr (Or.inr (Or.inl ⟨rfl, Or.inl ⟨lh, rfl, hown, hposseq, hdef, hE⟩⟩))⟩
        · have hbody : new_turn_action s t r =
              movementPhase (turnState s t) (buildLighthouseDict t.Lighthouses) t r := by
            unfold new_turn_action
            simp only [hdg, hpn, hhl, if_pos hown, if_neg hposs, if_neg hdef]
          rw [hbody]
          have hmp := movementPhase_spec (turnState s t) (buildLighthouseDict t.Lighthouses)
            t r rfl rfl
          refine ⟨hmp.2.1, hmp.2.2.1.trans hpn, hmp.2.2.2.trans hhl, ?_⟩
          rcases hmp.1 with ⟨hh, hv⟩ | ⟨d, hd⟩
          · exact Or.inr (Or.inr (Or.inl ⟨hh, Or.inr hv⟩))
          · exact Or.inr (Or.inr (Or.inr ⟨d, hd⟩))
    · by_cases hE : t.Energy > lh.Energy
      · have hbody : new_turn_action s t r =
            (.attack (attackEnergy s.player_num (s.histLen + 1)
                (turnState s t).threat_zones t lh.Energy) (t.Position.1, t.Position.2),
              turnState s t, r) := by
          unfold new_turn_action
          simp only [hdg, hpn, hhl, if_neg hown, if_pos hE]
        rw [hbody]
        exact ⟨rfl, hpn, hhl, Or.inr (Or.inl ⟨lh, rfl, rfl, hE⟩)⟩
      · have hbody : new_turn_action s t r =
            movementPhase (turnState s t) (buildLighthouseDict t.Lighthouses) t r := by
          unfold new_turn_action
          simp only [hdg, hpn, hhl, if_neg hown, if_neg hE]
        rw [hbody]
        have hmp := movementPhase_spec (turnState s t) (buildLighthouseDict t.Lighthouses)
          t r rfl rfl
        refine ⟨hmp.2.1, hmp.2.2.1.trans hpn, hmp.2.2.2.trans hhl, ?_⟩
        rcases hmp.1 with ⟨hh, hv⟩ | ⟨d, hd⟩
        · exact Or.inr (Or.inr (Or.inl ⟨hh, Or.inr hv⟩))
        · exact Or.inr (Or.inr (Or.inr ⟨d, hd⟩))

end MainBot

namespace MainBot

lemma dynamicReserve_ge_5 (player : ℤ) (histLen : ℕ) (tz : List Pos) (t : NewTurn) :
    5 ≤ dynamicReserve player histLen tz t := by
  simp only [dynamicReserve]
  have htm : (0 : ℤ) ≤ (tz.length : ℤ) / 20 :=
    Int.ediv_nonneg (Int.ofNat_nonneg _) (by norm_num)
  split
  · split <;> omega
  · split
    · split <;> omega
    · split <;> omega

lemma optimize_le_energy (player : ℤ) (histLen : ℕ) (tz : List Pos) (t : NewTurn)
    (target : ℤ) (hE : 0 ≤ t.Energy) :
    optimize_energy_allocation player histLen tz t target ≤ t.Energy := by
  simp only [optimize_energy_allocation]
  have hres := dynamicReserve_ge_5 player histLen tz t
  split <;> omega

lemma optimize_le_sub5 (player : ℤ) (histLen : ℕ) (tz : List Pos) (t : NewTurn)
    (target : ℤ) (h1 : 1 ≤ optimize_energy_allocation player histLen tz t target) :
    optimize_energy_allocation player histLen tz t target ≤ t.Energy - 5 := by
  simp only [optimize_energy_allocation] at h1 ⊢
  have hres := dynamicReserve_ge_5 player histLen tz t
  split at h1 <;> [skip; skip] <;> split <;> omega

lemma attackEnergy_bounds (player : ℤ) (histLen : ℕ) (tz : List Pos) (t : NewTurn)
    (lhE : ℤ) (hE : 0 ≤ lhE) (hgt : lhE < t.Energy) :
    min (lhE + 1) (t.Energy - 20) ≤ attackEnergy player histLen tz t lhE ∧
    attackEnergy player histLen tz t lhE ≤ t.Energy := by
  simp only [attackEnergy, energy_reserve]
  have hle := optimize_le_energy player histLen tz t (lhE + 1 + lhE) (by omega)
  split
  · rename_i hopt
    omega
  · omega

end MainBot

namespace MainBot

lemma dictInsert_mem {d : List (Pos × Lighthouse)} {k : Pos} {v : Lighthouse}
    {e : Pos × Lighthouse} (h : e ∈ dictInsert d k v) : e ∈ d ∨ e = (k, v) := by
  induction d with
  | nil =>
    unfold dictInsert at h
    exact Or.inr (List.mem_singleton.mp h)
  | cons hd tl ih =>
    unfold dictInsert at h
    by_cases hk : hd.1 = k
    · rw [if_pos hk] at h
      rcases List.mem_cons.mp h with h1 | h1
      · right
        rw [h1, hk]
      · exact Or.inl (List.mem_cons_of_mem _ h1)
    · rw [if_neg hk] at h
      rcases List.mem_cons.mp h with h1 | h1
      · exact Or.inl (h1 ▸ List.mem_cons_self _ _)
      · rcases ih h1 with h2 | h2
        · exact Or.inl (List.mem_cons_of_mem _ h2)
        · exact Or.inr h2

lemma buildDict_mem {ls : List Lighthouse} {e : Pos × Lighthouse}
    (h : e ∈ buildLighthouseDict ls) : e.2 ∈ ls ∧ e.2.Position = e.1 := by
  suffices haux : ∀ (l : List Lighthouse) (acc : List (Pos × Lighthouse)),
      (∀ x ∈ acc, x.2 ∈ ls ∧ x.2.Position = x.1) → (∀ lh ∈ l, lh ∈ ls) →
      ∀ x ∈ l.foldl (fun d lh => dictInsert d lh.Position lh) acc,
        x.2 ∈ ls ∧ x.2.Position = x.1 by
    exact haux ls [] (by simp) (fun _ h => h) e h
  intro l
  induction l with
  | nil => intro acc hacc _ x hx; exact hacc x hx
  | cons hd tl ih =>
    intro acc hacc hsub x hx
    refine ih (dictInsert acc hd.Position hd) ?_ (fun lh hlh => hsub lh (List.mem_cons_of_mem _ hlh)) x hx
    intro y hy
    rcases dictInsert_mem hy with h1 | h1
    · exact hacc y h1
    · rw [h1]
      exact ⟨hsub hd (List.mem_cons_self _ _), rfl⟩

lemma dictGet?_mem {d : List (Pos × Lighthouse)} {p : Pos} {lh : Lighthouse}
    (h : dictGet? d p = some lh) : ∃ e ∈ d, e.1 = p ∧ e.2 = lh := by
  unfold dictGet? at h
  rcases hf : d.find? (fun e => e.1 = p) with _ | e
  · rw [hf] at h
    simp at h
  · rw [hf] at h
    have h2 : e.2 = lh := by simpa using h
    refine ⟨e, List.mem_of_find?_eq_some hf, ?_, h2⟩
    have := List.find?_some hf
    simpa using this

lemma dictGet?_lighthouse {ls : List Lighthouse} {p : Pos} {lh : Lighthouse}
    (h : dictGet? (buildLighthouseDict ls) p = some lh) :
    lh ∈ ls ∧ lh.Position = p := by
  obtain ⟨e, hmem, hp, hv⟩ := dictGet?_mem h
  have := buildDict_mem hmem
  rw [hv, hp] at this
  exact this

lemma possible_connections_mem {player : ℤ} {pos d : Pos}
    {dict : List (Pos × Lighthouse)} (h : d ∈ possible_connections player pos dict) :
    ∃ e ∈ dict, e.1 = d := by
  unfold possible_connections at h
  obtain ⟨e, hmem, heq⟩ := List.mem_map.mp h
  exact ⟨e, List.mem_of_mem_filter hmem, heq⟩

end MainBot

/-! ### Claim C1 -/

/-- C1 (counterexample): the claim "for every turn snapshot, the single Action
returned by the per-turn decision function has a destination within
[0,15)×[0,15)" is false for `randbot.py`'s `new_turn_action` (cited as a source
of the claim): at (0,0) the random move has no bounds correction and can
return a Move to (-1,-1). -/
theorem C1_counterexample :
    (Randbot.new_turn_action 1 turnC1 [0]).1 = .move (-1, -1) ∧
    inBounds ((Randbot.new_turn_action 1 turnC1 [0]).1.destination) = false := by
  decide

/-- C1 (amended): for `main.py`'s `new_turn_action`, given a snapshot whose own
position and lighthouse positions are in bounds, the returned action's
destination always lies within [0,15)×[0,15). -/
theorem C1_theorem (s : MainBot.BotState) (t : NewTurn) (r : List ℕ)
    (hpos : inBounds t.Position = true)
    (hlhs : ∀ lh ∈ t.Lighthouses, inBounds lh.Position = true) :
    inBounds ((MainBot.new_turn_action s t r).1.destination) = true := by
  have hspec := MainBot.new_turn_action_spec s t r
  rcases hspec.2.2.2 with ⟨d, lh, hc, _, _, hmem⟩ | ⟨lh, ha, _, _⟩ | ⟨hh, _⟩ |
    ⟨d, hm, hb, _⟩
  · rw [hc]
    obtain ⟨e, he, hep⟩ := MainBot.possible_connections_mem hmem
    obtain ⟨hin, hposeq⟩ := MainBot.buildDict_mem he
    have := hlhs e.2 hin
    rw [hposeq, hep] at this
    exact this
  · rw [ha]
    exact hpos
  · rw [hh]
    exact hpos
  · rw [hm]
    exact hb

/-- C1 (witness): the amended theorem applied at a concrete in-bounds
snapshot. -/
theorem C1_witness :
    inBounds ((MainBot.new_turn_action (MainBot.initialBotState 1) turnC1w []).1.destination)
      = true :=
  C1_theorem (MainBot.initialBotState 1) turnC1w [] (by decide) (by decide)

/-! ### Claim C2 -/

/-- C2 (counterexample): the claim "for every Attack action, the committed
energy is at least 0 and at most currentEnergy minus the dynamic reserve" is
false: on `turnC2` (energy 19, lighthouse energy 1, three owned lighthouses)
the allocator grants 3 < lighthouseEnergy+1 is false, so the branch
`energy = min(optimal, Energy - 20)` commits min(3, -1) = -1 < 0. -/
theorem C2_counterexample :
    (MainBot.new_turn_action (MainBot.initialBotState 1) turnC2 []).1 =
      .attack (-1) (7, 7) ∧ ((-1 : ℤ) < 0) := by
  decide

/-- C2 (amended): for every Attack action emitted by `main.py`'s
`new_turn_action` on a snapshot with non-negative lighthouse energies, the
committed energy is at most the agent's current energy and at least
min(lighthouseEnergy + 1, currentEnergy - 20) for the lighthouse under the
agent; the claimed bounds 0 ≤ energy ≤ energy - reserve do not hold in
general. -/
theorem C2_theorem (s : MainBot.BotState) (t : NewTurn) (r : List ℕ)
    (hwf : ∀ lh ∈ t.Lighthouses, 0 ≤ lh.Energy) (e : ℤ) (d : Pos)
    (h : (MainBot.new_turn_action s t r).1 = .attack e d) :
    d = t.Position ∧ e ≤ t.Energy ∧
    ∃ lh, dictGet? (buildLighthouseDict t.Lighthouses) t.Position =
        some lh ∧ min (lh.Energy + 1) (t.Energy - 20) ≤ e := by
  have hspec := MainBot.new_turn_action_spec s t r
  rcases hspec.2.2.2 with ⟨d', lh, hc, _, _, _⟩ | ⟨lh, ha, hdg, hE⟩ | ⟨hh, _⟩ |
    ⟨d', hm, _, _⟩
  · rw [h] at hc
    simp at hc
  · rw [h] at ha
    obtain ⟨he, hd⟩ : e = MainBot.attackEnergy s.player_num (s.histLen + 1)
        (MainBot.turnState s t).threat_zones t lh.Energy ∧ d = t.Position := by
      cases ha
      exact ⟨rfl, rfl⟩
    have hE0 : 0 ≤ lh.Energy := hwf lh (MainBot.dictGet?_lighthouse hdg).1
    have hb := MainBot.attackEnergy_bounds s.player_num (s.histLen + 1)
      (MainBot.turnState s t).threat_zones t lh.Energy hE0 hE
    exact ⟨hd, he ▸ hb.2, lh, hdg, he ▸ hb.1⟩
  · rw [h] at hh
    simp at hh
  · rw [h] at hm
    simp at hm

/-- C2 (witness): the amended theorem applied at a concrete attack-emitting
snapshot (`turnC2w`, where the emitted attack carries energy 3). -/
theorem C2_witness :
    ((7, 7) : Pos) = turnC2w.Position ∧ (3 : ℤ) ≤ turnC2w.Energy ∧
    ∃ lh, dictGet? (buildLighthouseDict turnC2w.Lighthouses)
        turnC2w.Position = some lh ∧ min (lh.Energy + 1) (turnC2w.Energy - 20) ≤ 3 :=
  C2_theorem (MainBot.initialBotState 1) turnC2w [] (by decide) 3 (7, 7) (by decide)

/-! ### Claim C3 -/

/-- C3 (counterexample): the claim "whenever the agent stands on a lighthouse
it does not own and the energy allocator grants at least lighthouseEnergy+1,
the decision function emits an Attack whose energy is at least
lighthouseEnergy+1" is false: on `turnC2` the allocator grants 3 ≥ 2, yet the
emitted attack carries energy min(3, 19-20) = -1 < 2. -/
theorem C3_counterexample :
    MainBot.optimize_energy_allocation 1 1
        (MainBot.turnState (MainBot.initialBotState 1) turnC2).threat_zones turnC2
        (1 + 1 + 1) = 3 ∧
    (MainBot.new_turn_action (MainBot.initialBotState 1) turnC2 []).1 =
      .attack (-1) (7, 7) ∧ ¬ ((1 : ℤ) + 1 ≤ -1) := by
  decide

/-- C3 (amended): whenever the agent stands on a lighthouse it does not own
and the allocator grants at least lighthouseEnergy+1, the decision function
emits an Attack, and its energy is at least
min(lighthouseEnergy + 1, currentEnergy - 20) (the bound lighthouseEnergy+1
itself holds only when currentEnergy ≥ lighthouseEnergy + 21). -/
theorem C3_theorem (s : MainBot.BotState) (t : NewTurn) (r : List ℕ) (lh : Lighthouse)
    (hdg : dictGet? (buildLighthouseDict t.Lighthouses) (t.Position.1, t.Position.2) =
      some lh)
    (hown : ¬ lh.Owner = s.player_num)
    (hE0 : 0 ≤ lh.Energy)
    (hgrant : lh.Energy + 1 ≤ MainBot.optimize_energy_allocation s.player_num
      (s.histLen + 1) (MainBot.turnState s t).threat_zones t (lh.Energy + 1 + lh.Energy)) :
    (MainBot.new_turn_action s t r).1 =
      .attack (MainBot.attackEnergy s.player_num (s.histLen + 1)
        (MainBot.turnState s t).threat_zones t lh.Energy) (t.Position.1, t.Position.2) ∧
    min (lh.Energy + 1) (t.Energy - 20) ≤
      MainBot.attackEnergy s.player_num (s.histLen + 1)
        (MainBot.turnState s t).threat_zones t lh.Energy := by
  have h5 := MainBot.optimize_le_sub5 s.player_num (s.histLen + 1)
    (MainBot.turnState s t).threat_zones t (lh.Energy + 1 + lh.Energy) (by omega)
  have hEgt : lh.Energy < t.Energy := by omega
  have hpn : (MainBot.turnState s t).player_num = s.player_num := rfl
  have hhl : (MainBot.turnState s t).histLen = s.histLen + 1 := rfl
  constructor
  · have hbody : MainBot.new_turn_action s t r =
        (.attack (MainBot.attackEnergy s.player_num (s.histLen + 1)
            (MainBot.turnState s t).threat_zones t lh.Energy) (t.Position.1, t.Position.2),
          MainBot.turnState s t, r) := by
      unfold MainBot.new_turn_action
      simp only [hdg, hpn, hhl, if_neg hown, if_pos hEgt]
    rw [hbody]
  · exact (MainBot.attackEnergy_bounds s.player_num (s.histLen + 1)
      (MainBot.turnState s t).threat_zones t lh.Energy hE0 hEgt).1

/-- C3 (witness): the amended theorem applied on `turnC2w`, where the
allocator grants 3 ≥ 2. -/
theorem C3_witness :
    (MainBot.new_turn_action (MainBot.initialBotState 1) turnC2w []).1 =
      .attack (MainBot.attackEnergy (MainBot.initialBotState 1).player_num
        ((MainBot.initialBotState 1).histLen + 1)
        (MainBot.turnState (MainBot.initialBotState 1) turnC2w).threat_zones turnC2w 1)
        (turnC2w.Position.1, turnC2w.Position.2) ∧
    min ((1 : ℤ) + 1) (turnC2w.Energy - 20) ≤
      MainBot.attackEnergy (MainBot.initialBotState 1).player_num
        ((MainBot.initialBotState 1).histLen + 1)
        (MainBot.turnState (MainBot.initialBotState 1) turnC2w).threat_zones turnC2w 1 := by
  have h := C3_theorem (MainBot.initialBotState 1) turnC2w []
    { Position := (7, 7), Owner := 0, Energy := 1, HaveKey := false, Connections := [] }
    (by decide) (by decide) (by decide) (by decide)
  exact h

/-! ### Claim C4 -/

/-- C4 (code bug): `randbot.py` comments "No conectar si ya existe la
conexión", but its check `[cx, cy] not in lighthouses[dest].Connections`
compares a Python list against protobuf Position messages and is always true;
on `turnC4` the bot emits a Connect to (5,5) even though (5,5)'s Connections
already contain the agent's position (0,0). -/
theorem C4_code_bug :
    (Randbot.new_turn_action 1 turnC4 [0, 0]).1 = .connect (5, 5) ∧
    ((0, 0) : Pos) ∈ lhC4dest.Connections ∧ lhC4dest ∈ turnC4.Lighthouses ∧
    lhC4dest.Position = (5, 5) ∧ lhC4dest.Owner = 1 ∧ lhC4dest.HaveKey = true ∧
    turnC4.Position = (0, 0) := by
  decide

/-! ### Claim C6 -/

/-- C6 (counterexample): the claim "the allocator returns 0 whenever
max(0, currentEnergy - reserve) = 0" is false: on `turnC6` (energy 19, enemy
lighthouse within 2 cells raising the reserve to 20) the available energy is
0, yet the efficiency bonus (`target > 0.7 * E`) lets the allocator return
min(19 - 5, 0 + 10) = 10 ≠ 0. -/
theorem C6_counterexample :
    MainBot.optimize_energy_allocation 1 1 [] turnC6 100 = 10 ∧
    max 0 (turnC6.Energy - MainBot.dynamicReserve 1 1 [] turnC6) = 0 ∧
    (10 : ℤ) ≠ 0 := by
  decide

/-- C6 (amended): for snapshots with non-negative energy the allocator never
returns more than the current energy, and it returns 0 whenever the available
energy max(0, currentEnergy - reserve) is 0, *provided* the efficiency bonus
does not fire (10·target ≤ 7·currentEnergy) and the requested target is
non-negative. -/
theorem C6_theorem (player : ℤ) (histLen : ℕ) (tz : List Pos) (t : NewTurn)
    (target : ℤ) (hE : 0 ≤ t.Energy) :
    MainBot.optimize_energy_allocation player histLen tz t target ≤ t.Energy ∧
    (max 0 (t.Energy - MainBot.dynamicReserve player histLen tz t) = 0 →
      ¬ 10 * target > 7 * t.Energy → 0 ≤ target →
      MainBot.optimize_energy_allocation player histLen tz t target = 0) := by
  refine ⟨MainBot.optimize_le_energy player histLen tz t target hE, ?_⟩
  intro h0 hnb ht
  simp only [MainBot.optimize_energy_allocation]
  rw [if_neg hnb]
  omega

/-- C6 (witness): the amended theorem at a concrete input (energy 3, reserve
10, target 2): the allocator returns 0. -/
theorem C6_witness :
    MainBot.optimize_energy_allocation 1 1 [] turnC6w 2 ≤ turnC6w.Energy ∧
    (max 0 (turnC6w.Energy - MainBot.dynamicReserve 1 1 [] turnC6w) = 0 →
      ¬ 10 * (2 : ℤ) > 7 * turnC6w.Energy → 0 ≤ (2 : ℤ) →
      MainBot.optimize_energy_allocation 1 1 [] turnC6w 2 = 0) :=
  C6_theorem 1 1 [] turnC6w 2 (by decide)

/-! ### Claim C7 -/

/-- C7 (counterexample): the claim "Pass is emitted only when every one of the
eight neighbouring cells is unavailable" is false: on `turnC7` the agent
stands on its own lighthouse, must defend it, and has too little energy to
recharge, so it emits Pass although all eight neighbours of (7,7) are
in-bounds. -/
theorem C7_counterexample :
    (MainBot.new_turn_action (MainBot.initialBotState 1) turnC7 []).1 = .halt (7, 7) ∧
    (MainBot.get_neighbors (7, 7)).length = 8 := by
  decide

/-- C7 (amended): with an in-bounds snapshot position, `main.py` emits Pass
only from the defend-without-energy branch: the agent stands on a lighthouse
it owns, has no legal connection, `should_defend` holds, and its energy does
not exceed the lighthouse's (the boxed-in movement Pass is unreachable for
in-bounds positions). -/
theorem C7_theorem (s : MainBot.BotState) (t : NewTurn) (r : List ℕ)
    (hpos : inBounds t.Position = true) (d : Pos)
    (h : (MainBot.new_turn_action s t r).1 = .halt d) :
    d = t.Position ∧
    ∃ lh, dictGet? (buildLighthouseDict t.Lighthouses) t.Position = some lh ∧
      lh.Owner = s.player_num ∧
      MainBot.possible_connections s.player_num t.Position
        (buildLighthouseDict t.Lighthouses) = [] ∧
      MainBot.should_defend s.player_num t.Position t = true ∧
      ¬ t.Energy > lh.Energy := by
  have hspec := MainBot.new_turn_action_spec s t r
  rcases hspec.2.2.2 with ⟨d', lh, hc, _, _, _⟩ | ⟨lh, ha, _, _⟩ | ⟨hh, hcond⟩ |
    ⟨d', hm, _, _⟩
  · rw [h] at hc
    simp at hc
  · rw [h] at ha
    simp at ha
  · rw [h] at hh
    have hd : d = t.Position := by
      cases hh
      rfl
    rcases hcond with hgood | hvalid
    · exact ⟨hd, hgood⟩
    · exact absurd hvalid (MainBot.validMovesAt_ne_nil hpos)
  · rw [h] at hm
    simp at hm

/-- C7 (witness): the amended theorem applied on `turnC7`. -/
theorem C7_witness :
    ((7, 7) : Pos) = turnC7.Position ∧
    ∃ lh, dictGet? (buildLighthouseDict turnC7.Lighthouses) turnC7.Position = some lh ∧
      lh.Owner = (MainBot.initialBotState 1).player_num ∧
      MainBot.possible_connections (MainBot.initialBotState 1).player_num turnC7.Position
        (buildLighthouseDict turnC7.Lighthouses) = [] ∧
      MainBot.should_defend (MainBot.initialBotState 1).player_num turnC7.Position turnC7
        = true ∧
      ¬ turnC7.Energy > lh.Energy :=
  C7_theorem (MainBot.initialBotState 1) turnC7 [] (by decide) (7, 7) (by decide)

/-! ### Claim C8 -/

/-- C8 (counterexample): the claim "the emitted Move never returns to the
previous turn's position while another legal neighbour exists" is false:
`lastX/lastY` are overwritten with the *current* position at the start of each
turn, so the backtrack check never compares against the previous turn.  Here
the bot moves (5,5) → (5,6) on turn 1 and back (5,6) → (5,5) on turn 2,
although other legal neighbours (e.g. (6,6)) exist. -/
theorem C8_counterexample :
    turnC8a.Position = (5, 5) ∧
    (MainBot.new_turn_action (MainBot.initialBotState 1) turnC8a []).1 = .move (5, 6) ∧
    turnC8b.Position = (5, 6) ∧
    (MainBot.new_turn_action stateC8 turnC8b [3]).1 = .move (5, 5) ∧
    inBounds ((6, 6) : Pos) = true ∧ ((6, 6) : Pos) ≠ (5, 5) := by
  decide

/-- C8 (amended): because `lastX/lastY` hold the current position when the
backtrack check runs, the only recomputation it can trigger is for a stand-still
step; consequently every emitted Move targets a cell different from the agent's
current position (but may well return to the previous turn's cell). -/
theorem C8_theorem (s : MainBot.BotState) (t : NewTurn) (r : List ℕ) (d : Pos)
    (h : (MainBot.new_turn_action s t r).1 = .move d) :
    d ≠ t.Position ∧ inBounds d = true := by
  have hspec := MainBot.new_turn_action_spec s t r
  rcases hspec.2.2.2 with ⟨d', lh, hc, _, _, _⟩ | ⟨lh, ha, _, _⟩ | ⟨hh, _⟩ |
    ⟨d', hm, hb, hne⟩
  · rw [h] at hc
    simp at hc
  · rw [h] at ha
    simp at ha
  · rw [h] at hh
    simp at hh
  · rw [h] at hm
    have hd : d = d' := by
      cases hm
      rfl
    exact ⟨hd ▸ hne, hd ▸ hb⟩

/-- C8 (witness): the amended theorem applied on the first C8 turn. -/
theorem C8_witness :
    ((5, 6) : Pos) ≠ turnC8a.Position ∧ inBounds ((5, 6) : Pos) = true :=
  C8_theorem (MainBot.initialBotState 1) turnC8a [] (5, 6) (by decide)

namespace MainBot

lemma foldl_subset {α : Type} {f : List Pos → α → List Pos}
    (hmono : ∀ acc x, acc ⊆ f acc x) (l : List α) (acc : List Pos) :
    acc ⊆ List.foldl f acc l := by
  induction l generalizing acc with
  | nil => exact fun a ha => ha
  | cons x xs ih => exact (hmono acc x).trans (ih (f acc x))

lemma foldl_mem {α : Type} {f : List Pos → α → List Pos}
    (hmono : ∀ acc x, acc ⊆ f acc x) {x : α} {l : List α} (hx : x ∈ l)
    {tgt : Pos} (hf : ∀ acc, tgt ∈ f acc x) (acc : List Pos) :
    tgt ∈ List.foldl f acc l := by
  induction l generalizing acc with
  | nil => cases hx
  | cons y ys ih =>
    rcases List.mem_cons.mp hx with h | h
    · subst h
      exact foldl_subset hmono ys (f acc x) (hf acc)
    · exact ih h (f acc y)

lemma setInsert_subset (s : List Pos) (p : Pos) : s ⊆ setInsert s p := by
  unfold setInsert
  split
  · exact fun a ha => ha
  · exact List.subset_append_left _ _

lemma mem_setInsert_self (s : List Pos) (p : Pos) : p ∈ setInsert s p := by
  unfold setInsert
  split
  · assumption
  · exact List.mem_append_right _ (List.mem_singleton_self p)

lemma lineThreats_mono (p1 p2 : Pos) (tz : List Pos) : tz ⊆ lineThreats p1 p2 tz := by
  simp only [lineThreats]
  split
  · exact foldl_subset (fun acc x => setInsert_subset acc (interpCell p1 p2 x)) _ tz
  · exact fun a ha => ha

lemma lineThreats_mem {p1 p2 : Pos} {step : ℕ}
    (h1 : 0 < lineSteps p1 p2) (h6 : lineSteps p1 p2 ≤ 6)
    (hk1 : 1 ≤ step) (hk2 : step < lineSteps p1 p2) (tz : List Pos) :
    interpCell p1 p2 step ∈ lineThreats p1 p2 tz := by
  simp only [lineThreats]
  rw [if_pos ⟨h1, h6⟩]
  have hx : step ∈ List.range' 1 (lineSteps p1 p2 - 1) := by
    rw [List.mem_range'_1]
    omega
  exact foldl_mem (fun acc x => setInsert_subset acc (interpCell p1 p2 x)) hx
    (fun acc => mem_setInsert_self acc (interpCell p1 p2 step)) tz

lemma pairsFoldl_subset {α : Type} {f : List Pos → α → α → List Pos}
    (hmono : ∀ acc a b, acc ⊆ f acc a b) (l : List α) (acc : List Pos) :
    acc ⊆ pairsFoldl f acc l := by
  induction l generalizing acc with
  | nil => exact fun a ha => ha
  | cons x xs ih =>
    unfold pairsFoldl
    exact (foldl_subset (fun b y => hmono b x y) xs acc).trans (ih _)

lemma pairsFoldl_mem {α : Type} {f : List Pos → α → α → List Pos}
    (hmono : ∀ acc a b, acc ⊆ f acc a b) {x y : α} {l2 : List α} (hy : y ∈ l2)
    {tgt : Pos} (hf : ∀ acc, tgt ∈ f acc x y) :
    ∀ (l1 : List α) (acc : List Pos), tgt ∈ pairsFoldl f acc (l1 ++ x :: l2) := by
  intro l1
  induction l1 with
  | nil =>
    intro acc
    unfold pairsFoldl
    refine pairsFoldl_subset hmono l2 _ ?_
    exact foldl_mem (fun b z => hmono b x z) hy hf acc
  | cons z zs ih =>
    intro acc
    unfold pairsFoldl
    exact ih _

lemma predict_mono (player : ℤ) (tz : List Pos) (t : NewTurn) :
    tz ⊆ predict_enemy_movement player tz t := by
  unfold predict_enemy_movement
  refine foldl_subset (fun acc pid => ?_) _ tz
  split
  · exact fun a ha => ha
  · exact pairsFoldl_subset (fun (acc : List Pos) (a b : Lighthouse) => lineThreats_mono a.Position b.Position acc) _ acc

lemma predict_mem {player o : ℤ} (ho : o ∈ ([1, 2, 3, 4] : List ℤ)) (hne : o ≠ player)
    {t : NewTurn} {lh1 lh2 : Lighthouse} {l1 l2 : List Lighthouse}
    (hfilter : t.Lighthouses.filter (fun lh => lh.Owner = o) = l1 ++ lh1 :: l2)
    (hy : lh2 ∈ l2) {tgt : Pos}
    (hf : ∀ acc, tgt ∈ lineThreats lh1.Position lh2.Position acc) (tz : List Pos) :
    tgt ∈ predict_enemy_movement player tz t := by
  unfold predict_enemy_movement
  refine foldl_mem (fun acc pid => ?_) ho (fun acc => ?_) tz
  · split
    · exact fun a ha => ha
    · exact pairsFoldl_subset (fun (acc : List Pos) (a b : Lighthouse) => lineThreats_mono a.Position b.Position acc) _ acc
  · rw [if_neg hne, hfilter]
    exact pairsFoldl_mem (fun (acc : List Pos) (a b : Lighthouse) => lineThreats_mono a.Position b.Position acc) hy
      (fun acc2 => hf acc2) l1 acc

end MainBot

/-! ### Claim C9 -/

/-- C9 (counterexample): the claim quantifies over "every pair of lighthouses
owned by the same non-agent player", but `predict_enemy_movement` only scans
owner ids in `range(1, 5)`: on `turnC9`, two lighthouses of player 5 with
Chebyshev span 2 produce no threat zones at all, so the interior cell (0,1)
is missing. -/
theorem C9_counterexample :
    MainBot.predict_enemy_movement 1 [] turnC9 = [] ∧
    (turnC9.Lighthouses.filter (fun lh => lh.Owner = 5)).length = 2 ∧
    MainBot.lineSteps (0, 0) (0, 2) = 2 ∧
    MainBot.interpCell (0, 0) (0, 2) 1 = (0, 1) ∧
    ((0, 1) : Pos) ∉ ([] : List Pos) := by
  decide

/-- C9 (amended): after the threat update run by each turn, for every pair of
lighthouses of the same non-agent owner *with id in 1..4* (in snapshot order)
whose Chebyshev span is positive and at most 6, every interpolated interior
cell is in the new threat-zone set; and the set grows monotonically across the
whole turn — no cell is ever removed. -/
theorem C9_theorem (s : MainBot.BotState) (t : NewTurn) (r : List ℕ)
    (o : ℤ) (ho : o ∈ ([1, 2, 3, 4] : List ℤ)) (hne : o ≠ s.player_num)
    (lh1 lh2 : Lighthouse) (l1 l2 : List Lighthouse)
    (hfilter : t.Lighthouses.filter (fun lh => lh.Owner = o) = l1 ++ lh1 :: l2)
    (hy : lh2 ∈ l2) (step : ℕ)
    (h1 : 0 < MainBot.lineSteps lh1.Position lh2.Position)
    (h6 : MainBot.lineSteps lh1.Position lh2.Position ≤ 6)
    (hk1 : 1 ≤ step) (hk2 : step < MainBot.lineSteps lh1.Position lh2.Position) :
    s.threat_zones ⊆ (MainBot.new_turn_action s t r).2.1.threat_zones ∧
    MainBot.interpCell lh1.Position lh2.Position step ∈
      (MainBot.new_turn_action s t r).2.1.threat_zones := by
  have hthreats := (MainBot.new_turn_action_spec s t r).1
  have hts : (MainBot.turnState s t).threat_zones =
      MainBot.predict_enemy_movement s.player_num s.threat_zones t := rfl
  rw [hthreats, hts]
  exact ⟨MainBot.predict_mono s.player_num s.threat_zones t,
    MainBot.predict_mem ho hne hfilter hy
      (MainBot.lineThreats_mem h1 h6 hk1 hk2) s.threat_zones⟩

/-- C9 (witness): the amended theorem on `turnC9w` (two lighthouses of player
2 at (0,0) and (0,2)): the interior cell (0,1) enters the threat zones. -/
theorem C9_witness :
    (MainBot.initialBotState 1).threat_zones ⊆
      (MainBot.new_turn_action (MainBot.initialBotState 1) turnC9w []).2.1.threat_zones ∧
    MainBot.interpCell (0, 0) (0, 2) 1 ∈
      (MainBot.new_turn_action (MainBot.initialBotState 1) turnC9w []).2.1.threat_zones := by
  have h := C9_theorem (MainBot.initialBotState 1) turnC9w [] 2 (by decide) (by decide)
    { Position := (0, 0), Owner := 2, Energy := 5, HaveKey := false, Connections := [] }
    { Position := (0, 2), Owner := 2, Energy := 5, HaveKey := false, Connections := [] }
    [] [{ Position := (0, 2), Owner := 2, Energy := 5, HaveKey := false, Connections := [] }]
    (by decide) (by decide) 1 (by decide) (by decide) (by decide) (by decide)
  exact h

namespace MainBot

lemma foldl_min_mem (x : ℕ × Pos) (xs : List (ℕ × Pos)) :
    xs.foldl (fun m e => if entryLt e m then e else m) x ∈ x :: xs := by
  induction xs generalizing x with
  | nil => exact List.mem_singleton_self x
  | cons y ys ih =>
    simp only [List.foldl_cons]
    rcases List.mem_cons.mp (ih (if entryLt y x then y else x)) with h | h
    · rw [h]
      split
      · exact List.mem_cons_of_mem _ (List.mem_cons_self _ _)
      · exact List.mem_cons_self _ _
    · exact List.mem_cons_of_mem _ (List.mem_cons_of_mem _ h)

lemma popMin_mem {l : List (ℕ × Pos)} {e : ℕ × Pos} {rest : List (ℕ × Pos)}
    (h : popMin l = some (e, rest)) : e ∈ l ∧ rest = l.erase e := by
  cases l with
  | nil => simp [popMin] at h
  | cons x xs =>
    simp only [popMin, Option.some.injEq, Prod.mk.injEq] at h
    obtain ⟨h1, h2⟩ := h
    subst h1
    exact ⟨foldl_min_mem x xs, h2.symm⟩

lemma popMin_none {l : List (ℕ × Pos)} (h : popMin l = none) : l = [] := by
  cases l with
  | nil => rfl
  | cons x xs => simp [popMin] at h

lemma get_neighbors_spec {p nb : Pos} (h : nb ∈ get_neighbors p) :
    inBounds nb = true ∧ nb ≠ p ∧ (p.1 - nb.1).natAbs ≤ 1 ∧ (p.2 - nb.2).natAbs ≤ 1 := by
  unfold get_neighbors at h
  have hb := List.of_mem_filter h
  obtain ⟨d, hd, heq⟩ := List.mem_map.mp (List.mem_of_mem_filter h)
  have hd8 : (d = ((-1 : ℤ), (-1 : ℤ)) ∨ d = (-1, 0) ∨ d = (-1, 1) ∨ d = (0, -1) ∨
      d = (0, 1) ∨ d = (1, -1) ∨ d = (1, 0) ∨ d = (1, 1)) := by
    simpa [moveOffsets] using hd
  refine ⟨hb, ?_, ?_, ?_⟩
  · intro hc
    rw [hc] at heq
    have h1 : p.1 + d.1 = p.1 := congrArg Prod.fst heq
    have h2 : p.2 + d.2 = p.2 := congrArg Prod.snd heq
    rcases hd8 with h | h | h | h | h | h | h | h <;> rw [h] at h1 h2 <;> simp at h1 h2
  · have h1 : nb.1 = p.1 + d.1 := (congrArg Prod.fst heq).symm
    rcases hd8 with h | h | h | h | h | h | h | h <;> rw [h] at h1 <;> simp at h1 <;> omega
  · have h2 : nb.2 = p.2 + d.2 := (congrArg Prod.snd heq).symm
    rcases hd8 with h | h | h | h | h | h | h | h <;> rw [h] at h2 <;> simp at h2 <;> omega

lemma recon_chainOK {cf : Pos → Option Pos} :
    ∀ (fuel : ℕ) (cur : Pos) (l : List Pos),
    reconstructLoop fuel cf cur = some l → chainOK cf cur l := by
  intro fuel
  induction fuel with
  | zero => intro cur l h; simp [reconstructLoop] at h
  | succ n ih =>
    intro cur l h
    unfold reconstructLoop at h
    rcases hc : cf cur with _ | p
    · rw [hc] at h
      dsimp only at h
      have hnil : l = [] := by simpa using h.symm
      rw [hnil]
      exact hc
    · rw [hc] at h
      dsimp only at h
      rcases hrec : reconstructLoop n cf p with _ | l'
      · rw [hrec] at h
        simp at h
      · rw [hrec] at h
        have hl : l = cur :: l' := by simpa using h.symm
        rw [hl]
        exact ⟨rfl, p, hc, ih p l' hrec⟩

end MainBot

namespace MainBot

lemma chainOK_props {cf : Pos → Option Pos} {start : Pos}
    (hroot : ∀ n p, cf n = some p → p = start ∨ cf p ≠ none) :
    ∀ (l : List Pos) (cur : Pos), chainOK cf cur l → l ≠ [] →
    l.head? = some cur ∧ List.Chain' (fun a b => cf a = some b) (l ++ [start]) ∧
    ∀ q ∈ l, cf q ≠ none := by
  intro l
  induction l with
  | nil => intro cur _ hne; exact absurd rfl hne
  | cons a rest ih =>
    intro cur hch _
    obtain ⟨ha, p, hcf, hrest⟩ := hch
    subst ha
    cases rest with
    | nil =>
      have hpn : cf p = none := hrest
      have hp : p = start := by
        rcases hroot a p hcf with h | h
        · exact h
        · exact absurd hpn h
      refine ⟨rfl, ?_, ?_⟩
      · simp only [List.nil_append, List.cons_append]
        exact List.chain'_pair.mpr (hp ▸ hcf)
      · intro q hq
        rw [List.mem_singleton.mp hq, hcf]
        simp
    | cons b rest' =>
      have hb : b = p := hrest.1
      obtain ⟨hhead, hchain, hmem⟩ := ih p hrest (by simp)
      refine ⟨rfl, ?_, ?_⟩
      · rw [List.cons_append]
        refine List.chain'_cons.mpr ⟨?_, ?_⟩
        · rw [hb] at *
          exact hb ▸ hcf
        · exact hchain
      · intro q hq
        rcases List.mem_cons.mp hq with h | h
        · rw [h, hcf]
          simp
        · exact hmem q h

end MainBot

namespace MainBot

lemma foldl_preserve {β α : Type} {P : β → Prop} {f : β → α → β} :
    ∀ (l : List α) (b : β), (∀ b x, x ∈ l → P b → P (f b x)) → P b → P (l.foldl f b) := by
  intro l
  induction l with
  | nil => intro b _ hb; exact hb
  | cons x xs ih =>
    intro b hstep hb
    exact ih (f b x) (fun b' y hy => hstep b' y (List.mem_cons_of_mem _ hy))
      (hstep b x (List.mem_cons_self _ _) hb)

lemma relaxNeighbor_cases (goal : Pos) (obstacles : List Pos) (cur : Pos) (gc : ℕ)
    (st : AStarState) (nb : Pos) :
    relaxNeighbor goal obstacles cur gc st nb = st ∨
    (nb ∉ obstacles ∧
     relaxNeighbor goal obstacles cur gc st nb =
       { openL := (gc + 1 + heuristic nb goal, nb) :: st.openL
         cameFrom := fun p => if p = nb then some cur else st.cameFrom p
         gScore := fun p => if p = nb then some (gc + 1) else st.gScore p
         fScore := fun p => if p = nb then some (gc + 1 + heuristic nb goal) else st.fScore p } ∧
     (st.gScore nb = none ∨ ∃ gn, st.gScore nb = some gn ∧ gc + 1 < gn)) := by
  unfold relaxNeighbor
  by_cases hobs : nb ∈ obstacles
  · rw [if_pos hobs]
    exact Or.inl rfl
  · rw [if_neg hobs]
    rcases hg : st.gScore nb with _ | gn
    · refine Or.inr ⟨hobs, ?_, Or.inl rfl⟩
      rfl
    · by_cases hlt : gc + 1 < gn
      · refine Or.inr ⟨hobs, ?_, Or.inr ⟨gn, rfl, hlt⟩⟩
        dsimp only
        simp [decide_eq_true hlt]
      · refine Or.inl ?_
        dsimp only
        simp [decide_eq_false hlt]

lemma relax_preserve {start goal : Pos} {obstacles : List Pos} {cur : Pos} {gc : ℕ}
    {st : AStarState} (hinv : AStarInv start obstacles st)
    (hcur : cur = start ∨ st.cameFrom cur ≠ none) {nb : Pos}
    (hnb : nb ∈ get_neighbors cur) :
    AStarInv start obstacles (relaxNeighbor goal obstacles cur gc st nb) := by
  rcases relaxNeighbor_cases goal obstacles cur gc st nb with heq | ⟨hobs, heq, himp⟩
  · rw [heq]
    exact hinv
  · have hnbs : nb ≠ start := by
      intro hc
      subst hc
      rcases himp with h | ⟨gn, hg, hlt⟩
      · rw [hinv.gstart] at h
        exact Option.noConfusion h
      · rw [hinv.gstart] at hg
        have : gn = 0 := by simpa using hg.symm
        omega
    rw [heq]
    refine ⟨?_, ?_, ?_, ?_, ?_⟩
    · intro n p hcf
      dsimp only at hcf
      by_cases hn : n = nb
      · rw [if_pos hn] at hcf
        injection hcf with h2
        subst hn
        subst h2
        exact ⟨hnb, hobs⟩
      · rw [if_neg hn] at hcf
        exact hinv.edges n p hcf
    · intro n p hcf
      dsimp only at hcf ⊢
      by_cases hn : n = nb
      · rw [if_pos hn] at hcf
        injection hcf with h2
        subst h2
        rcases hcur with h | h
        · exact Or.inl h
        · right
          have hcn : cur ≠ nb := Ne.symm (get_neighbors_spec hnb).2.1
          rw [if_neg hcn]
          exact h
      · rw [if_neg hn] at hcf
        rcases hinv.rooted n p hcf with h | h
        · exact Or.inl h
        · right
          by_cases hp : p = nb
          · rw [if_pos hp]
            simp
          · rw [if_neg hp]
            exact h
    · dsimp only
      rw [if_neg (Ne.symm hnbs)]
      exact hinv.gstart
    · intro e he
      dsimp only at he ⊢
      rcases List.mem_cons.mp he with h | h
      · right
        rw [h]
        simp
      · rcases hinv.openRooted e h with h2 | h2
        · exact Or.inl h2
        · right
          by_cases hp : e.2 = nb
          · rw [if_pos hp]
            simp
          · rw [if_neg hp]
            exact h2
    · dsimp only
      rw [if_neg (Ne.symm hnbs)]
      exact hinv.startCF

lemma cameFrom_mono {goal : Pos} {obstacles : List Pos} {cur nb : Pos} {gc : ℕ}
    {st : AStarState} {q : Pos} (h : st.cameFrom q ≠ none) :
    (relaxNeighbor goal obstacles cur gc st nb).cameFrom q ≠ none := by
  rcases relaxNeighbor_cases goal obstacles cur gc st nb with heq | ⟨_, heq, _⟩
  · rw [heq]
    exact h
  · rw [heq]
    dsimp only
    by_cases hq : q = nb
    · rw [if_pos hq]
      simp
    · rw [if_neg hq]
      exact h

lemma relax_state_preserve {start goal cur : Pos} {obstacles : List Pos} {gc : ℕ}
    {st : AStarState} {nb : Pos}
    (h : AStarInv start obstacles st ∧ (cur = start ∨ st.cameFrom cur ≠ none))
    (hnb : nb ∈ get_neighbors cur) :
    AStarInv start obstacles (relaxNeighbor goal obstacles cur gc st nb) ∧
    (cur = start ∨ (relaxNeighbor goal obstacles cur gc st nb).cameFrom cur ≠ none) := by
  refine ⟨relax_preserve h.1 h.2 hnb, ?_⟩
  rcases h.2 with h2 | h2
  · exact Or.inl h2
  · exact Or.inr (cameFrom_mono h2)

lemma aStarLoop_valid {start goal : Pos} {obstacles : List Pos} :
    ∀ (fuel : ℕ) (st : AStarState) (path : List Pos),
    AStarInv start obstacles st →
    aStarLoop start goal obstacles fuel st = some path →
    path.head? = some start ∧ path.getLast? = some goal ∧
    List.Chain' (validStep obstacles) path := by
  intro fuel
  induction fuel with
  | zero => intro st path _ hres; simp [aStarLoop] at hres
  | succ n ih =>
    intro st path hinv hres
    unfold aStarLoop at hres
    rcases hp : popMin st.openL with _ | ⟨e, rest⟩
    · rw [hp] at hres
      simp at hres
    · rw [hp] at hres
      dsimp only at hres
      have hmem := popMin_mem hp
      by_cases hg : e.2 = goal
      · rw [if_pos hg] at hres
        rcases hrec : reconstructLoop (aStarFuel + 1) st.cameFrom e.2 with _ | l
        · rw [hrec] at hres
          simp at hres
        · rw [hrec] at hres
          have hpath : path = (l ++ [start]).reverse := by simpa using hres.symm
          have hchain := recon_chainOK (aStarFuel + 1) e.2 l hrec
          cases l with
          | nil =>
            have hcf : st.cameFrom e.2 = none := hchain
            have hes : e.2 = start := by
              rcases hinv.openRooted e hmem.1 with h | h
              · exact h
              · exact absurd hcf h
            rw [hpath]
            refine ⟨rfl, ?_, by simp⟩
            simp [hes ▸ hg]
          | cons a rest' =>
            obtain ⟨hhead, hchain2, _⟩ :=
              chainOK_props hinv.rooted (a :: rest') e.2 hchain (by simp)
            have ha : a = e.2 := by simpa using hhead
            rw [hpath]
            refine ⟨?_, ?_, ?_⟩
            · rw [List.head?_reverse]
              exact List.getLast?_concat _
            · rw [List.getLast?_reverse]
              simp [ha, hg]
            · have hrev : List.Chain' (fun x y => st.cameFrom y = some x)
                  (((a :: rest') ++ [start]).reverse) := by
                rw [List.chain'_reverse]
                exact hchain2.imp (fun x y hxy => hxy)
              exact hrev.imp (fun x y hxy => by
                obtain ⟨hn, ho⟩ := hinv.edges y x hxy
                obtain ⟨hb, hne, hd1, hd2⟩ := get_neighbors_spec hn
                exact ⟨Ne.symm hne, hd1, hd2, hb, ho⟩)
      · rw [if_neg hg] at hres
        have hbase : AStarInv start obstacles { st with openL := rest } :=
          ⟨hinv.edges, hinv.rooted, hinv.gstart,
           fun e' he' => hinv.openRooted e'
             (by rw [hmem.2] at he'; exact List.mem_of_mem_erase he'),
           hinv.startCF⟩
        have hcur : e.2 = start ∨
            ({ st with openL := rest } : AStarState).cameFrom e.2 ≠ none :=
          hinv.openRooted e hmem.1
        have hst' := foldl_preserve (P := fun s => AStarInv start obstacles s ∧
            (e.2 = start ∨ s.cameFrom e.2 ≠ none))
          (f := relaxNeighbor goal obstacles e.2 ((st.gScore e.2).getD 0))
          (get_neighbors e.2) { st with openL := rest }
          (fun b x hx hb => relax_state_preserve hb hx) ⟨hbase, hcur⟩
        exact ih _ path hst'.1 hres

end MainBot

/-- C10 counterexample: with start `(15, 14)` — out of bounds — and goal
`(14, 14)`, `a_star_pathfind` still returns the path `[(15, 14), (14, 14)]`,
whose first element is not an in-bounds cell, so "every consecutive pair of
elements consists of distinct in-bounds cells" fails at the first pair. -/
theorem C10_counterexample :
    (MainBot.a_star_pathfind [] (((15 : ℤ), (14 : ℤ)) : Pos) ((14, 14) : Pos) []).1 =
      some [(((15 : ℤ), (14 : ℤ)) : Pos), ((14, 14) : Pos)] ∧
    inBounds (((15 : ℤ), (14 : ℤ)) : Pos) = false := by
  exact ⟨by decide, by decide⟩

/-- C10: amended path validity of `a_star_pathfind` with an empty cache: a
returned path is non-empty, starts at `start`, ends at `goal`, and every
consecutive pair steps to a distinct 8-adjacent cell; in-bounds and
obstacle-freeness hold for every element after the first (the second component
of each consecutive pair), but not necessarily for `start` itself. -/
theorem C10_theorem (start goal : Pos) (obstacles : List Pos) (path : List Pos)
    (h : (MainBot.a_star_pathfind [] start goal obstacles).1 = some path) :
    path ≠ [] ∧ path.head? = some start ∧ path.getLast? = some goal ∧
    List.Chain' (MainBot.validStep obstacles) path := by
  unfold MainBot.a_star_pathfind at h
  simp only [List.find?_nil, Option.map_none'] at h
  by_cases hsg : start = goal
  · rw [if_pos hsg] at h
    dsimp only at h
    have hpath : path = [start] := by simpa using h.symm
    subst hpath
    refine ⟨by simp, rfl, by simp [hsg], by simp⟩
  · rw [if_neg hsg] at h
    rcases hs : MainBot.a_star_search start goal obstacles with _ | p
    · rw [hs] at h
      simp at h
    · rw [hs] at h
      dsimp only at h
      have hpath : p = path := by simpa using h
      subst hpath
      unfold MainBot.a_star_search at hs
      dsimp only at hs
      have hinv0 : MainBot.AStarInv start obstacles
          { openL := [(0, start)]
            cameFrom := fun _ => none
            gScore := fun p => if p = start then some 0 else none
            fScore := fun p => if p = start then some (MainBot.heuristic start goal)
              else none } := by
        refine ⟨?_, ?_, ?_, ?_, ?_⟩
        · intro n q hcf
          exact Option.noConfusion hcf
        · intro n q hcf
          exact Option.noConfusion hcf
        · dsimp only
          rw [if_pos rfl]
        · intro e' he'
          have h2 := List.mem_singleton.mp he'
          subst h2
          exact Or.inl rfl
        · rfl
      obtain ⟨h1, h2, h3⟩ :=
        MainBot.aStarLoop_valid MainBot.aStarFuel _ p hinv0 hs
      refine ⟨?_, h1, h2, h3⟩
      intro hnil
      rw [hnil] at h1
      exact Option.noConfusion h1

/-- C10 witness: the path returned for start `(0, 0)`, goal `(2, 1)` with no
obstacles is `[(0, 0), (1, 1), (2, 1)]`, and it satisfies the amended
validity properties. -/
theorem C10_witness :
    ([(((0 : ℤ), (0 : ℤ)) : Pos), (1, 1), (2, 1)] : List Pos) ≠ [] ∧
    ([(((0 : ℤ), (0 : ℤ)) : Pos), (1, 1), (2, 1)] : List Pos).head? =
      some (((0 : ℤ), (0 : ℤ)) : Pos) ∧
    ([(((0 : ℤ), (0 : ℤ)) : Pos), (1, 1), (2, 1)] : List Pos).getLast? =
      some (((2 : ℤ), (1 : ℤ)) : Pos) ∧
    List.Chain' (MainBot.validStep [])
      ([(((0 : ℤ), (0 : ℤ)) : Pos), (1, 1), (2, 1)] : List Pos) :=
  C10_theorem (((0 : ℤ), (0 : ℤ)) : Pos) ((2, 1) : Pos) []
    [(((0 : ℤ), (0 : ℤ)) : Pos), (1, 1), (2, 1)] (by decide)

namespace MainBot

lemma sgn_cases (d : ℤ) : sgn d = -1 ∨ sgn d = 0 ∨ sgn d = 1 := by
  unfold sgn
  split_ifs <;> simp

lemma chainNode_zero (start goal : Pos) : chainNode start goal 0 = start := by
  unfold chainNode sgn
  rw [Prod.ext_iff]
  constructor <;> (dsimp only; split_ifs <;> omega)

lemma chainNode_last {start goal : Pos} {j : ℕ} (h : chebyshev start goal ≤ j) :
    chainNode start goal j = goal := by
  unfold chebyshev at h
  unfold chainNode sgn
  rw [Prod.ext_iff]
  constructor <;> (dsimp only; split_ifs <;> omega)

lemma heuristic_chainNode (start goal : Pos) (j : ℕ) :
    heuristic (chainNode start goal j) goal =
      ((goal.1 - start.1).natAbs - j) + ((goal.2 - start.2).natAbs - j) := by
  unfold heuristic chainNode sgn
  dsimp only
  split_ifs <;> omega

lemma chebyshev_start_chainNode (start goal : Pos) (j : ℕ) :
    chebyshev start (chainNode start goal j) = min j (chebyshev start goal) := by
  unfold chebyshev chainNode sgn
  dsimp only
  split_ifs <;> omega

lemma chebyshev_chainNode_goal (start goal : Pos) (j : ℕ) :
    chebyshev (chainNode start goal j) goal = chebyshev start goal - j := by
  unfold chebyshev chainNode sgn
  dsimp only
  split_ifs <;> omega

lemma chainNode_ne_goal {start goal : Pos} {j : ℕ} (h : j < chebyshev start goal) :
    chainNode start goal j ≠ goal := by
  intro hc
  have h6 := chebyshev_chainNode_goal start goal j
  rw [hc] at h6
  unfold chebyshev at h6 h
  simp only [sub_self, Int.natAbs_zero, Nat.max_self] at h6
  omega

lemma scalarWeak (d : ℤ) (j : ℕ) (a : ℤ) (ha : a.natAbs ≤ 1) :
    d.natAbs - (j + 1) ≤ (d - sgn d * min (j : ℤ) (d.natAbs : ℤ) - a).natAbs := by
  unfold sgn
  split_ifs <;> omega

lemma scalarStrict (d : ℤ) (j : ℕ) (a : ℤ) (ha : a.natAbs ≤ 1)
    (hne : a ≠ sgn (d - sgn d * min (j : ℤ) (d.natAbs : ℤ))) :
    (d.natAbs - (j + 1)) + 1 ≤ (d - sgn d * min (j : ℤ) (d.natAbs : ℤ) - a).natAbs := by
  unfold sgn at *
  split_ifs at * <;> omega

lemma chainNode_succ (start goal : Pos) (j : ℕ) :
    chainNode start goal (j + 1) =
      ((chainNode start goal j).1 + sgn (goal.1 - (chainNode start goal j).1),
       (chainNode start goal j).2 + sgn (goal.2 - (chainNode start goal j).2)) := by
  unfold chainNode sgn
  rw [Prod.ext_iff]
  constructor <;> (dsimp only; split_ifs at * <;> omega)

lemma chainNode_inBounds {start goal : Pos} (hs : inBounds start = true)
    (hg : inBounds goal = true) (j : ℕ) : inBounds (chainNode start goal j) = true := by
  unfold inBounds map_width map_height at hs hg ⊢
  simp only [Bool.and_eq_true, decide_eq_true_eq] at hs hg ⊢
  unfold chainNode sgn
  dsimp only
  split_ifs <;> omega

lemma mem_moveOffsets {a b : ℤ} (ha : a.natAbs ≤ 1) (hb : b.natAbs ≤ 1)
    (hnz : ¬(a = 0 ∧ b = 0)) : (a, b) ∈ moveOffsets := by
  unfold moveOffsets
  simp only [List.mem_cons, List.not_mem_nil, or_false, Prod.mk.injEq]
  omega

lemma sgn_natAbs_le (d : ℤ) : (sgn d).natAbs ≤ 1 := by
  unfold sgn
  split_ifs <;> simp

lemma chainNode_succ_mem {start goal : Pos} {j : ℕ} (hs : inBounds start = true)
    (hg : inBounds goal = true) (hj : j < chebyshev start goal) :
    chainNode start goal (j + 1) ∈ get_neighbors (chainNode start goal j) := by
  unfold get_neighbors
  refine List.mem_filter.mpr ⟨?_, chainNode_inBounds hs hg (j + 1)⟩
  refine List.mem_map.mpr ⟨(sgn (goal.1 - (chainNode start goal j).1),
    sgn (goal.2 - (chainNode start goal j).2)), ?_, ?_⟩
  · have hnz : ¬(sgn (goal.1 - (chainNode start goal j).1) = 0 ∧
        sgn (goal.2 - (chainNode start goal j).2) = 0) := by
      intro hc
      have h1 : goal.1 - (chainNode start goal j).1 = 0 := by
        have h := hc.1
        unfold sgn at h
        split_ifs at h <;> omega
      have h2 : goal.2 - (chainNode start goal j).2 = 0 := by
        have h := hc.2
        unfold sgn at h
        split_ifs at h <;> omega
      have h6 := chebyshev_chainNode_goal start goal j
      unfold chebyshev at h6 hj
      omega
    exact mem_moveOffsets (sgn_natAbs_le _) (sgn_natAbs_le _) hnz
  · dsimp only
    exact (chainNode_succ start goal j).symm

set_option maxHeartbeats 2000000 in
lemma unique_min {start goal nb : Pos} {j : ℕ} (hj : j < chebyshev start goal)
    (hnb : nb ∈ get_neighbors (chainNode start goal j))
    (hne : nb ≠ chainNode start goal (j + 1)) :
    heuristic (chainNode start goal (j + 1)) goal + 1 ≤ heuristic nb goal := by
  obtain ⟨hb, hnq, hd1, hd2⟩ := get_neighbors_spec hnb
  have hne2 : nb.1 ≠ (chainNode start goal (j + 1)).1 ∨
      nb.2 ≠ (chainNode start goal (j + 1)).2 := by
    by_contra hc
    push_neg at hc
    exact hne (Prod.ext_iff.mpr ⟨hc.1, hc.2⟩)
  clear hne hnq hb hnb
  unfold chebyshev at hj
  unfold heuristic
  unfold chainNode sgn at hne2 hd1 hd2 ⊢
  dsimp only at hne2 hd1 hd2 ⊢
  split_ifs at hne2 hd1 hd2 ⊢ <;> omega

lemma chebyshev_neighbor {p nb : Pos} (q : Pos) (h : nb ∈ get_neighbors p) :
    chebyshev q nb ≤ chebyshev q p + 1 := by
  obtain ⟨_, _, hd1, hd2⟩ := get_neighbors_spec h
  unfold chebyshev
  omega

lemma chebyshev_le_14 {a b : Pos} (ha : inBounds a = true) (hb : inBounds b = true) :
    chebyshev a b ≤ 14 := by
  unfold inBounds map_width map_height at ha hb
  simp only [Bool.and_eq_true, decide_eq_true_eq] at ha hb
  unfold chebyshev
  omega

lemma fEntry_pos_closed (start goal : Pos) {k : ℕ} (hk : 1 ≤ k) :
    fEntry start goal k =
      k + (((goal.1 - start.1).natAbs - k) + ((goal.2 - start.2).natAbs - k)) := by
  cases k with
  | zero => exact absurd hk (by omega)
  | succ n =>
    rw [show fEntry start goal (n + 1) =
      (n + 1) + heuristic (chainNode start goal (n + 1)) goal from rfl]
    rw [heuristic_chainNode]

lemma fEntry_mono (start goal : Pos) {k1 k2 : ℕ} (h1 : 1 ≤ k1) (h2 : k1 ≤ k2)
    (h3 : k2 ≤ chebyshev start goal) : fEntry start goal k2 ≤ fEntry start goal k1 := by
  rw [fEntry_pos_closed start goal h1, fEntry_pos_closed start goal (le_trans h1 h2)]
  unfold chebyshev at h3
  omega

end MainBot

namespace MainBot

lemma entryLt_irrefl (a : ℕ × Pos) : entryLt a a = false := by
  unfold entryLt
  simp

lemma entryLt_asymm {a b : ℕ × Pos} (h : entryLt a b = true)
    (h2 : entryLt b a = true) : False := by
  unfold entryLt at h h2
  simp only [Bool.or_eq_true, Bool.and_eq_true, decide_eq_true_eq] at h h2
  omega

lemma entryLt_of_lt {a b : ℕ × Pos} (h : a.1 < b.1) : entryLt a b = true := by
  unfold entryLt
  simp only [Bool.or_eq_true, Bool.and_eq_true, decide_eq_true_eq]
  exact Or.inl h

lemma foldl_min_strict (x : ℕ × Pos) :
    ∀ (xs : List (ℕ × Pos)) (acc : ℕ × Pos),
      (∀ e ∈ xs, e = x ∨ entryLt x e = true) →
      (acc = x ∨ (entryLt x acc = true ∧ x ∈ xs)) →
      xs.foldl (fun m e => if entryLt e m then e else m) acc = x := by
  intro xs
  induction xs with
  | nil =>
    intro acc h hacc
    rcases hacc with rfl | ⟨_, hmem⟩
    · rfl
    · exact absurd hmem (List.not_mem_nil x)
  | cons y ys ih =>
    intro acc h hacc
    simp only [List.foldl_cons]
    apply ih
    · intro e he
      exact h e (List.mem_cons_of_mem _ he)
    · rcases hacc with rfl | ⟨hlt, hmem⟩
      · rcases h y (List.mem_cons_self _ _) with rfl | hy
        · left
          simp
        · left
          rw [if_neg (fun hc => entryLt_asymm hy hc)]
      · rcases h y (List.mem_cons_self _ _) with rfl | hy
        · left
          rw [if_pos hlt]
        · have hxy : x ≠ y := by
            intro hc
            rw [← hc] at hy
            rw [entryLt_irrefl] at hy
            exact Bool.noConfusion hy
          have hmem2 : x ∈ ys := by
            rcases List.mem_cons.mp hmem with hc | hc
            · exact absurd hc hxy
            · exact hc
          right
          refine ⟨?_, hmem2⟩
          split
          · exact hy
          · exact hlt

lemma popMin_strict {l : List (ℕ × Pos)} {x : ℕ × Pos}
    (hx : x ∈ l) (hmin : ∀ e ∈ l, e = x ∨ entryLt x e = true) :
    popMin l = some (x, l.erase x) := by
  cases l with
  | nil => exact absurd hx (List.not_mem_nil x)
  | cons y ys =>
    have hfold : ys.foldl (fun m e => if entryLt e m then e else m) y = x := by
      apply foldl_min_strict
      · intro e he
        exact hmin e (List.mem_cons_of_mem _ he)
      · rcases hmin y (List.mem_cons_self _ _) with rfl | hy
        · exact Or.inl rfl
        · right
          refine ⟨hy, ?_⟩
          have hxy : x ≠ y := by
            intro hc
            rw [← hc] at hy
            rw [entryLt_irrefl] at hy
            exact Bool.noConfusion hy
          rcases List.mem_cons.mp hx with hc | hc
          · exact absurd hc hxy
          · exact hc
    unfold popMin
    dsimp only
    rw [hfold]

lemma gScore_mono {goal : Pos} {obstacles : List Pos} {cur nb : Pos} {gc : ℕ}
    {st : AStarState} {q : Pos} (h : st.gScore q ≠ none) :
    (relaxNeighbor goal obstacles cur gc st nb).gScore q ≠ none := by
  rcases relaxNeighbor_cases goal obstacles cur gc st nb with heq | ⟨_, heq, _⟩
  · rw [heq]
    exact h
  · rw [heq]
    dsimp only
    by_cases hq : q = nb
    · rw [if_pos hq]
      simp
    · rw [if_neg hq]
      exact h

lemma relaxNeighbor_update {goal : Pos} {obstacles : List Pos} {cur : Pos} {gc : ℕ}
    {st : AStarState} {nb : Pos} (hobs : nb ∉ obstacles) (hg : st.gScore nb = none) :
    relaxNeighbor goal obstacles cur gc st nb =
      { openL := (gc + 1 + heuristic nb goal, nb) :: st.openL
        cameFrom := fun p => if p = nb then some cur else st.cameFrom p
        gScore := fun p => if p = nb then some (gc + 1) else st.gScore p
        fScore := fun p => if p = nb then some (gc + 1 + heuristic nb goal) else st.fScore p } := by
  unfold relaxNeighbor
  rw [if_neg hobs, hg]
  rfl

lemma relaxNeighbor_noop {goal : Pos} {obstacles : List Pos} {cur : Pos} {gc : ℕ}
    {st : AStarState} {nb : Pos} {g : ℕ} (hg : st.gScore nb = some g)
    (hle : ¬gc + 1 < g) : relaxNeighbor goal obstacles cur gc st nb = st := by
  unfold relaxNeighbor
  by_cases hobs : nb ∈ obstacles
  · rw [if_pos hobs]
  · rw [if_neg hobs, hg]
    dsimp only
    simp [decide_eq_false hle]

end MainBot

namespace MainBot

lemma chainFold_step {start goal : Pos} {j : ℕ} {st : AStarState} {nb : Pos}
    (hj : j < chebyshev start goal)
    (hnb : nb ∈ get_neighbors (chainNode start goal j))
    (hQ : ChainFoldInv start goal j st) :
    ChainFoldInv start goal j (relaxNeighbor goal [] (chainNode start goal j) j st nb) := by
  rcases relaxNeighbor_cases goal [] (chainNode start goal j) j st nb with
    heq | ⟨hobs, heq, himp⟩
  · rw [heq]
    exact hQ
  · have hfresh : ∀ k, k ≤ j → nb ≠ chainNode start goal k := by
      intro k hk hc
      rcases himp with hnone | ⟨gn, hgn, hlt⟩
      · rw [hc, hQ.gchain k hk] at hnone
        exact Option.noConfusion hnone
      · rw [hc, hQ.gchain k hk] at hgn
        have hgnk : k = gn := by simpa using hgn
        omega
    have hnstart : nb ≠ start := by
      have h := hfresh 0 (Nat.zero_le j)
      rw [chainNode_zero] at h
      exact h
    rw [heq]
    by_cases htip : nb = chainNode start goal (j + 1)
    · rcases hQ.tip with ⟨hnone, hbound⟩ | ⟨hsome, _, _⟩
      swap
      · exfalso
        rw [htip] at himp
        rcases himp with hn | ⟨gn, hgn, hlt⟩
        · rw [hsome] at hn
          exact Option.noConfusion hn
        · rw [hsome] at hgn
          have : j + 1 = gn := by simpa using hgn
          omega
      refine ⟨?_, ?_, ?_, ?_, ?_⟩
      · intro k hk
        dsimp only
        rw [if_neg (fun hc => hfresh k hk hc.symm)]
        exact hQ.gchain k hk
      · intro p hp
        dsimp only at hp
        by_cases hpn : p = nb
        · subst hpn
          have h1 := chebyshev_neighbor start hnb
          rw [chebyshev_start_chainNode] at h1
          omega
        · rw [if_neg hpn] at hp
          exact le_trans (hQ.greach p hp) (by omega)
      · intro k h1 h2
        dsimp only
        rw [if_neg (fun hc => hfresh k h2 hc.symm)]
        exact hQ.cfchain k h1 h2
      · dsimp only
        rw [if_neg (fun hc => hnstart hc.symm)]
        exact hQ.cfstart
      · right
        refine ⟨?_, ?_, ?_⟩
        · dsimp only
          rw [if_pos htip.symm]
        · dsimp only
          rw [if_pos htip.symm]
        · refine ⟨[], st.openL, ?_, ?_⟩
          · dsimp only
            rw [List.nil_append, htip]
            rfl
          · intro e he k hk1 hk2
            exact hbound e (by simpa using he) k hk1 hk2
    · refine ⟨?_, ?_, ?_, ?_, ?_⟩
      · intro k hk
        dsimp only
        rw [if_neg (fun hc => hfresh k hk hc.symm)]
        exact hQ.gchain k hk
      · intro p hp
        dsimp only at hp
        by_cases hpn : p = nb
        · subst hpn
          have h1 := chebyshev_neighbor start hnb
          rw [chebyshev_start_chainNode] at h1
          omega
        · rw [if_neg hpn] at hp
          exact le_trans (hQ.greach p hp) (by omega)
      · intro k h1 h2
        dsimp only
        rw [if_neg (fun hc => hfresh k h2 hc.symm)]
        exact hQ.cfchain k h1 h2
      · dsimp only
        rw [if_neg (fun hc => hnstart hc.symm)]
        exact hQ.cfstart
      · have hjunk : ∀ k, j + 1 ≤ k → k ≤ chebyshev start goal →
            fEntry start goal k < j + 1 + heuristic nb goal := by
          intro k hk1 hk2
          have hm := fEntry_mono start goal (show 1 ≤ j + 1 by omega) hk1 hk2
          have hu := unique_min hj hnb htip
          have hfe : fEntry start goal (j + 1) =
              (j + 1) + heuristic (chainNode start goal (j + 1)) goal := rfl
          omega
        rcases hQ.tip with ⟨hnone, hbound⟩ | ⟨hsome, hcf, l1, l2, hL, hB⟩
        · left
          refine ⟨?_, ?_⟩
          · dsimp only
            rw [if_neg (fun hc => htip hc.symm)]
            exact hnone
          · intro e he k hk1 hk2
            dsimp only at he
            rcases List.mem_cons.mp he with h1 | h1
            · rw [h1]
              exact hjunk k hk1 hk2
            · exact hbound e h1 k hk1 hk2
        · right
          refine ⟨?_, ?_, (j + 1 + heuristic nb goal, nb) :: l1, l2, ?_, ?_⟩
          · dsimp only
            rw [if_neg (fun hc => htip hc.symm)]
            exact hsome
          · dsimp only
            rw [if_neg (fun hc => htip hc.symm)]
            exact hcf
          · dsimp only
            rw [hL]
            rfl
          · intro e he k hk1 hk2
            rcases List.mem_append.mp he with h1 | h1
            · rcases List.mem_cons.mp h1 with h2 | h2
              · rw [h2]
                exact hjunk k hk1 hk2
              · exact hB e (List.mem_append_left _ h2) k hk1 hk2
            · exact hB e (List.mem_append_right _ h1) k hk1 hk2

end MainBot

namespace MainBot

lemma erase_middle (x : ℕ × Pos) (l1 l2 : List (ℕ × Pos)) (hx : x ∉ l1) :
    (l1 ++ x :: l2).erase x = l1 ++ l2 := by
  induction l1 with
  | nil => simp
  | cons y ys ih =>
    have hyx : (y == x) = false := by
      refine beq_eq_false_iff_ne.mpr ?_
      intro hc
      exact hx (hc ▸ List.mem_cons_self _ _)
    have hx2 : x ∉ ys := fun hc => hx (List.mem_cons_of_mem _ hc)
    simp [List.erase_cons, hyx, ih hx2]

lemma chainFold_result {start goal : Pos} {j : ℕ} {st : AStarState}
    (hs : inBounds start = true) (hg : inBounds goal = true)
    (hj : j < chebyshev start goal) (hQ : ChainFoldInv start goal j st) :
    ChainFoldInv start goal j
      ((get_neighbors (chainNode start goal j)).foldl
        (relaxNeighbor goal [] (chainNode start goal j) j) st) ∧
    ((get_neighbors (chainNode start goal j)).foldl
        (relaxNeighbor goal [] (chainNode start goal j) j) st).gScore
      (chainNode start goal (j + 1)) ≠ none := by
  obtain ⟨la, lb, hsplit⟩ := List.append_of_mem (chainNode_succ_mem hs hg hj)
  rw [hsplit, List.foldl_append, List.foldl_cons]
  have hmemla : ∀ x ∈ la, x ∈ get_neighbors (chainNode start goal j) := by
    intro x hx
    rw [hsplit]
    exact List.mem_append_left _ hx
  have hmemlb : ∀ x ∈ lb, x ∈ get_neighbors (chainNode start goal j) := by
    intro x hx
    rw [hsplit]
    exact List.mem_append_right _ (List.mem_cons_of_mem _ hx)
  have hQ1 : ChainFoldInv start goal j
      (la.foldl (relaxNeighbor goal [] (chainNode start goal j) j) st) :=
    foldl_preserve (f := relaxNeighbor goal [] (chainNode start goal j) j) la st
      (fun b x hx hb => chainFold_step hj (hmemla x hx) hb) hQ
  have hmid : ChainFoldInv start goal j
        (relaxNeighbor goal [] (chainNode start goal j) j
          (la.foldl (relaxNeighbor goal [] (chainNode start goal j) j) st)
          (chainNode start goal (j + 1))) ∧
      (relaxNeighbor goal [] (chainNode start goal j) j
          (la.foldl (relaxNeighbor goal [] (chainNode start goal j) j) st)
          (chainNode start goal (j + 1))).gScore (chainNode start goal (j + 1)) ≠ none := by
    refine ⟨chainFold_step hj (chainNode_succ_mem hs hg hj) hQ1, ?_⟩
    rcases hQ1.tip with ⟨hnone, _⟩ | ⟨hsome, _, _⟩
    · rw [relaxNeighbor_update (List.not_mem_nil _) hnone]
      dsimp only
      rw [if_pos rfl]
      simp
    · rw [relaxNeighbor_noop hsome (by omega), hsome]
      simp
  exact foldl_preserve
    (P := fun s => ChainFoldInv start goal j s ∧
      s.gScore (chainNode start goal (j + 1)) ≠ none)
    (f := relaxNeighbor goal [] (chainNode start goal j) j) lb _
    (fun b x hx hb => ⟨chainFold_step hj (hmemlb x hx) hb.1, gScore_mono hb.2⟩) hmid

lemma recon_chain_len {start goal : Pos} {cf : Pos → Option Pos} {K : ℕ}
    (hcf : ∀ k, 1 ≤ k → k ≤ K →
      cf (chainNode start goal k) = some (chainNode start goal (k - 1)))
    (h0 : cf start = none) :
    ∀ k, k ≤ K → ∀ fuel, k < fuel →
      ∃ l, reconstructLoop fuel cf (chainNode start goal k) = some l ∧ l.length = k := by
  intro k
  induction k with
  | zero =>
    intro _ fuel hf
    cases fuel with
    | zero => omega
    | succ f =>
      refine ⟨[], ?_, rfl⟩
      unfold reconstructLoop
      rw [chainNode_zero, h0]
  | succ n ih =>
    intro hk fuel hf
    cases fuel with
    | zero => omega
    | succ f =>
      obtain ⟨l, hl, hlen⟩ := ih (by omega) f (by omega)
      refine ⟨chainNode start goal (n + 1) :: l, ?_, by simp [hlen]⟩
      unfold reconstructLoop
      rw [hcf (n + 1) (by omega) hk]
      dsimp only
      rw [show n + 1 - 1 = n from rfl, hl]
      rfl

lemma chainLoop {start goal : Pos} (hs : inBounds start = true)
    (hg : inBounds goal = true) :
    ∀ (n j : ℕ) (st : AStarState), ChainInv start goal j st →
      j ≤ chebyshev start goal → chebyshev start goal - j < n →
      ∃ l, aStarLoop start goal [] n st = some l ∧
        l.length = chebyshev start goal + 1 := by
  intro n
  induction n with
  | zero =>
    intro j st _ _ hlt
    omega
  | succ m ih =>
    intro j st hI hjD hlt
    obtain ⟨l1, l2, hL, hB⟩ := hI.heap
    have hx : (fEntry start goal j, chainNode start goal j) ∈ st.openL := by
      rw [hL]
      exact List.mem_append_right _ (List.mem_cons_self _ _)
    have hnotin : (fEntry start goal j, chainNode start goal j) ∉ l1 := by
      intro hc
      exact absurd (hB _ (List.mem_append_left _ hc) j le_rfl hjD) (by simp)
    have hmin : ∀ e ∈ st.openL, e = (fEntry start goal j, chainNode start goal j) ∨
        entryLt (fEntry start goal j, chainNode start goal j) e = true := by
      intro e he
      rw [hL] at he
      rcases List.mem_append.mp he with h1 | h1
      · exact Or.inr (entryLt_of_lt (hB e (List.mem_append_left _ h1) j le_rfl hjD))
      · rcases List.mem_cons.mp h1 with h2 | h2
        · exact Or.inl h2
        · exact Or.inr (entryLt_of_lt (hB e (List.mem_append_right _ h2) j le_rfl hjD))
    have hpop : popMin st.openL =
        some ((fEntry start goal j, chainNode start goal j), l1 ++ l2) := by
      have h := popMin_strict hx hmin
      rw [hL] at h ⊢
      rw [erase_middle _ _ _ hnotin] at h
      exact h
    by_cases hjeq : j = chebyshev start goal
    · have hcg : chainNode start goal j = goal := chainNode_last (by omega)
      obtain ⟨lr, hlr, hlen⟩ := recon_chain_len hI.cfchain hI.cfstart j le_rfl
        (aStarFuel + 1)
        (by
          have h14 := chebyshev_le_14 hs hg
          have hf : aStarFuel = 100000 := rfl
          omega)
      refine ⟨(lr ++ [start]).reverse, ?_, ?_⟩
      · unfold aStarLoop
        rw [hpop]
        dsimp only
        rw [if_pos hcg, hlr]
        rfl
      · rw [List.length_reverse, List.length_append, hlen]
        simp [hjeq]
    · have hjD2 : j < chebyshev start goal := by omega
      have hne : chainNode start goal j ≠ goal := chainNode_ne_goal hjD2
      have hgc : (st.gScore (chainNode start goal j)).getD 0 = j := by
        rw [hI.gchain j le_rfl]
        rfl
      have hbase : ChainFoldInv start goal j { st with openL := l1 ++ l2 } := by
        refine ⟨hI.gchain, fun p hp => le_trans (hI.greach p hp) (by omega),
          hI.cfchain, hI.cfstart, Or.inl ⟨?_, ?_⟩⟩
        · by_contra hc
          have h2 := hI.greach _ hc
          rw [chebyshev_start_chainNode] at h2
          omega
        · intro e he k hk1 hk2
          exact hB e he k (by omega) hk2
      obtain ⟨hQf, hgf⟩ := chainFold_result hs hg hjD2 hbase
      rcases hQf.tip with ⟨hnone, _⟩ | ⟨hsome, hcf, l1', l2', hL', hB'⟩
      · exact absurd hnone hgf
      · have hI2 : ChainInv start goal (j + 1)
            ((get_neighbors (chainNode start goal j)).foldl
              (relaxNeighbor goal [] (chainNode start goal j) j)
              { st with openL := l1 ++ l2 }) := by
          refine ⟨⟨l1', l2', hL', hB'⟩, ?_, hQf.greach, ?_, hQf.cfstart⟩
          · intro k hk
            rcases Nat.lt_or_ge k (j + 1) with h1 | h1
            · exact hQf.gchain k (by omega)
            · have hk1 : k = j + 1 := by omega
              rw [hk1]
              exact hsome
          · intro k h1 h2
            rcases Nat.lt_or_ge k (j + 1) with h3 | h3
            · exact hQf.cfchain k h1 (by omega)
            · have hk1 : k = j + 1 := by omega
              rw [hk1, show j + 1 - 1 = j from rfl]
              exact hcf
        obtain ⟨l, hl, hlen⟩ := ih (j + 1) _ hI2 (by omega) (by omega)
        refine ⟨l, ?_, hlen⟩
        unfold aStarLoop
        rw [hpop]
        dsimp only
        rw [if_neg hne, hgc]
        exact hl

end MainBot

/-- C5: for every in-bounds start and goal and an empty obstacle set,
`a_star_pathfind` (with an empty cache) returns a path whose number of steps
equals the Chebyshev distance between start and goal: the returned list has
`chebyshev start goal + 1` elements. -/
theorem C5_theorem (start goal : Pos) (hs : inBounds start = true)
    (hg : inBounds goal = true) :
    ∃ p, (MainBot.a_star_pathfind [] start goal []).1 = some p ∧
      p.length = MainBot.chebyshev start goal + 1 := by
  unfold MainBot.a_star_pathfind
  simp only [List.find?_nil, Option.map_none']
  by_cases hsg : start = goal
  · rw [if_pos hsg]
    refine ⟨[start], rfl, ?_⟩
    subst hsg
    unfold MainBot.chebyshev
    simp
  · rw [if_neg hsg]
    have hI0 : MainBot.ChainInv start goal 0
        { openL := [(0, start)]
          cameFrom := fun _ => none
          gScore := fun p => if p = start then some 0 else none
          fScore := fun p => if p = start then some (MainBot.heuristic start goal)
            else none } := by
      refine ⟨⟨[], [], ?_, ?_⟩, ?_, ?_, ?_, rfl⟩
      · rw [MainBot.chainNode_zero]
        rfl
      · intro e he k hk1 hk2
        exact absurd he (List.not_mem_nil e)
      · intro k hk
        have hk0 : k = 0 := by omega
        rw [hk0, MainBot.chainNode_zero]
        dsimp only
        rw [if_pos rfl]
      · intro p hp
        dsimp only at hp
        by_cases hps : p = start
        · rw [hps]
          unfold MainBot.chebyshev
          simp
        · rw [if_neg hps] at hp
          exact absurd rfl hp
      · intro k h1 h2
        omega
    obtain ⟨l, hl, hlen⟩ := MainBot.chainLoop hs hg MainBot.aStarFuel 0 _ hI0
      (Nat.zero_le _)
      (by
        have h14 := MainBot.chebyshev_le_14 hs hg
        have hf : MainBot.aStarFuel = 100000 := rfl
        omega)
    refine ⟨l, ?_, hlen⟩
    have hsearch : MainBot.a_star_search start goal [] = some l := by
      unfold MainBot.a_star_search
      exact hl
    rw [hsearch]

/-- C5 witness: from `(0, 0)` to `(2, 1)` with no obstacles the pathfinder
returns a path of `chebyshev ((0,0), (2,1)) + 1 = 3` elements. -/
theorem C5_witness :
    ∃ p, (MainBot.a_star_pathfind [] (((0 : ℤ), (0 : ℤ)) : Pos) ((2, 1) : Pos) []).1 =
      some p ∧
      p.length = MainBot.chebyshev (((0 : ℤ), (0 : ℤ)) : Pos) ((2, 1) : Pos) + 1 :=
  C5_theorem (((0 : ℤ), (0 : ℤ)) : Pos) ((2, 1) : Pos) (by decide) (by decide)
